import Mathlib

/-! Basketball tracker: detection decoding and predictive pan controller.

A shallow embedding of `src/Detector.cpp` (the post-processing part of
`Detector::detect`) and `src/MotorController.cpp` (`MotorController::update`
and its helpers), followed by theorems about them.

Modelling conventions

* `float` and `double` values are exact rationals (`ℚ`): comparisons are the
  comparisons of finite IEEE values, arithmetic is exact (no rounding, no
  NaN, no infinity).
* `int` values are unbounded integers (`Int`); loop indices and sizes are
  natural numbers.  Signed overflow is undefined in C++ and is not modelled.
* Mutable members become explicit state passing; calls of
  `sendCommandsToHardware` and the pass-command notice become a list of
  `Output` values in emission order.
* The clock read `cv::getTickCount() / cv::getTickFrequency()` is an input
  of `update`.
-/

namespace BasketballTracker

/-! ## Data model -/

/-- The integer rectangle `cv::Rect` : top-left corner, width and height. -/
structure Rect where
  x : Int
  y : Int
  width : Int
  height : Int
deriving DecidableEq

/-- The member `cv::Rect::area()` : width times height. -/
def Rect.area (r : Rect) : Int := r.width * r.height

/-- The integer size `cv::Size`. -/
structure Size where
  width : Int
  height : Int
deriving DecidableEq

/-- The struct `Detection` of `include/Detector.h`. -/
structure Detection where
  classId : Int
  confidence : ℚ
  box : Rect
  className : String
deriving DecidableEq

/-! ## MotorController.cpp -/

def PAN_KP : ℚ := 1 / 2
def PAN_KI : ℚ := 1 / 100
def PAN_KD : ℚ := 1 / 10
def LEAD_TIME_S : ℚ := 1 / 2
def MAX_FRAMES_WITHOUT_DETECTION : Int := 15
def MIN_COMMAND : ℚ := -255
def MAX_COMMAND : ℚ := 255

/-- The members of `MotorController` that `MotorController.cpp` reads or
writes (`hand_signal_consecutive_frames` and `is_aligned` are declared in
the header and never touched). -/
structure MotorController where
  trackedPlayerBox : Option Rect
  prevTrackedPlayerBox : Option Rect
  last_detection_time : ℚ
  frames_since_last_seen : Int
  pan_pid_error_last : ℚ
  pan_pid_integral : ℚ
deriving DecidableEq

/-- The constructor `MotorController::MotorController()`. -/
def MotorController.init : MotorController :=
  { trackedPlayerBox := none
    prevTrackedPlayerBox := none
    last_detection_time := 0
    frames_since_last_seen := 0
    pan_pid_error_last := 0
    pan_pid_integral := 0 }

/-- What one call of `update` sends out: a pan value handed to
`sendCommandsToHardware`, or the pass-command notice of the gesture scan. -/
inductive Output where
  | motorCommand (pan : ℚ)
  | passCommand
deriving DecidableEq

/-- One iteration of the loop of `findBestPlayer`, on the pair
`(maxArea, bestCandidate)`. -/
def findBestPlayerStep (acc : ℚ × Option Rect) (detection : Detection) : ℚ × Option Rect :=
  if detection.className = "Player" then
    if (detection.box.area : ℚ) > acc.1 then
      ((detection.box.area : ℚ), some detection.box)
    else acc
  else acc

/-- The loop of `findBestPlayer`, started at `maxArea = 0` and no candidate. -/
def bestCandidate (detections : List Detection) : ℚ × Option Rect :=
  detections.foldl findBestPlayerStep (0, none)

/-- The method `MotorController::findBestPlayer`. -/
def findBestPlayer (mc : MotorController) (detections : List Detection) : MotorController :=
  { mc with
    prevTrackedPlayerBox := mc.trackedPlayerBox
    trackedPlayerBox := (bestCandidate detections).2 }

/-- The function `std::clamp(v, lo, hi)`. -/
def clamp (v lo hi : ℚ) : ℚ :=
  if v < lo then lo else if hi < v then hi else v

/-- The local `targetCenterX` (also `prevTargetCenterX`) of
`calculateMotorCommands` : `box.x + box.width / 2.0`. -/
def centerX (box : Rect) : ℚ := (box.x : ℚ) + (box.width : ℚ) / 2

/-- The local `predictedTargetCenterX` of `calculateMotorCommands`. -/
def predictedTargetCenterX (mc : MotorController) (targetBox : Rect) (dt : ℚ) : ℚ :=
  match mc.prevTrackedPlayerBox with
  | some prev =>
    if dt > 0 then
      centerX targetBox + ((centerX targetBox - centerX prev) / dt) * LEAD_TIME_S
    else centerX targetBox
  | none => centerX targetBox

/-- The local `pan_error` of `calculateMotorCommands`. -/
def panError (mc : MotorController) (targetBox : Rect) (frameSize : Size) (dt : ℚ) : ℚ :=
  predictedTargetCenterX mc targetBox dt - (frameSize.width : ℚ) / 2

/-- The local `pan_derivative` of `calculateMotorCommands`. -/
def panDerivative (mc : MotorController) (targetBox : Rect) (frameSize : Size) (dt : ℚ) : ℚ :=
  if dt > 0 then (panError mc targetBox frameSize dt - mc.pan_pid_error_last) / dt else 0

/-- The local `pan_command` of `calculateMotorCommands` : the PID output
before clamping. -/
def panCommand (mc : MotorController) (targetBox : Rect) (frameSize : Size) (dt : ℚ) : ℚ :=
  PAN_KP * panError mc targetBox frameSize dt
    + PAN_KI * (mc.pan_pid_integral + panError mc targetBox frameSize dt)
    + PAN_KD * panDerivative mc targetBox frameSize dt

/-- The method `MotorController::calculateMotorCommands` : the new state and
the value passed to `sendCommandsToHardware`. -/
def calculateMotorCommands (mc : MotorController) (targetBox : Rect) (frameSize : Size)
    (dt : ℚ) : MotorController × ℚ :=
  ({ mc with
      pan_pid_integral := mc.pan_pid_integral + panError mc targetBox frameSize dt
      pan_pid_error_last := panError mc targetBox frameSize dt },
   clamp (panCommand mc targetBox frameSize dt) MIN_COMMAND MAX_COMMAND)

/-- Step 3 of `update` : scan the detections for a hand signal, stopping at
the first one. -/
def handSignalScan : List Detection → List Output
  | [] => []
  | detection :: rest =>
    if detection.className = "Hand-Signal" then [Output.passCommand]
    else handSignalScan rest

/-- The local `dt` of `update`. -/
def updateDt (mc : MotorController) (current_time : ℚ) : ℚ :=
  if mc.last_detection_time > 0 then current_time - mc.last_detection_time else 0

/-- Steps 1 and 2 of `update` : target selection, then the tracking branch or
the safety-stop branch. -/
def trackStep (mc : MotorController) (detections : List Detection) (frameSize : Size)
    (current_time : ℚ) : MotorController × List Output :=
  match (findBestPlayer mc detections).trackedPlayerBox with
  | some box =>
    let r := calculateMotorCommands
      { findBestPlayer mc detections with frames_since_last_seen := 0 }
      box frameSize (updateDt mc current_time)
    ({ r.1 with last_detection_time := current_time }, [Output.motorCommand r.2])
  | none =>
    let n := (findBestPlayer mc detections).frames_since_last_seen + 1
    ({ findBestPlayer mc detections with
        frames_since_last_seen := n
        prevTrackedPlayerBox := none },
     if n > MAX_FRAMES_WITHOUT_DETECTION ∧ n < MAX_FRAMES_WITHOUT_DETECTION + 5 then
       [Output.motorCommand 0]
     else [])

/-- The method `MotorController::update`. -/
def update (mc : MotorController) (detections : List Detection) (frameSize : Size)
    (current_time : ℚ) : MotorController × List Output :=
  ((trackStep mc detections frameSize current_time).1,
   (trackStep mc detections frameSize current_time).2 ++ handSignalScan detections)

/-- A run of `update` calls, one per `(detections, frameSize, current_time)`,
returning the final state and the outputs of each call. -/
def run (mc : MotorController) :
    List (List Detection × Size × ℚ) → MotorController × List (List Output)
  | [] => (mc, [])
  | call :: rest =>
    let r := update mc call.1 call.2.1 call.2.2
    let rs := run r.1 rest
    (rs.1, r.2 :: rs.2)

/-- The pan values among the outputs of one call. -/
def commandsOf : List Output → List ℚ
  | [] => []
  | Output.motorCommand pan :: rest => pan :: commandsOf rest
  | Output.passCommand :: rest => commandsOf rest

/-! ## Detector.cpp

The pre-processing and the inference call of `Detector::detect` are outside
the model: `detect` starts from the raw output tensor `raw_output` of shape
`(1, 4 + num_classes, num_proposals)`, the frame size and the model input
size.  A read outside the tensor or outside one of the candidate vectors
makes the model return `none`. -/

/-- The members of `Detector` used by the post-processing. -/
structure Detector where
  classNames : List String
  confidenceThreshold : ℚ
  nmsThreshold : ℚ
deriving DecidableEq

/-- The constructor `Detector::Detector` : thresholds 0.50 and 0.2. -/
def Detector.init (classNames : List String) : Detector :=
  { classNames := classNames
    confidenceThreshold := 1 / 2
    nmsThreshold := 1 / 5 }

/-- The conversion `static_cast<int>` of a floating value: truncation
toward zero. -/
def truncToInt (v : ℚ) : Int := if 0 ≤ v then ⌊v⌋ else ⌈v⌉

/-- The three parallel vectors `class_ids`, `confidences` and `boxes`. -/
structure Candidates where
  class_ids : List Nat
  confidences : List ℚ
  boxes : List Rect
deriving DecidableEq

/-- The empty vectors before the proposal loop. -/
def Candidates.empty : Candidates := { class_ids := [], confidences := [], boxes := [] }

/-- The inner loop of `detect` over the classes `j` of proposal `i`, on the
pair `(max_score, class_id)`; `class_scores[j * num_proposals]` is
`raw_output[4 * num_proposals + i + j * num_proposals]`. -/
def scanClasses (raw_output : List ℚ) (num_proposals i : Nat) :
    List Nat → ℚ × Nat → Option (ℚ × Nat)
  | [], acc => some acc
  | j :: js, acc =>
    match raw_output[4 * num_proposals + i + j * num_proposals]? with
    | none => none
    | some score =>
      if score > acc.1 then scanClasses raw_output num_proposals i js (score, j)
      else scanClasses raw_output num_proposals i js acc

/-- The box pushed for a retained proposal, from `cx`, `cy`, `w`, `h`. -/
def scaledBox (cx cy w h x_factor y_factor : ℚ) : Rect :=
  { x := truncToInt ((cx - w / 2) * x_factor)
    y := truncToInt ((cy - h / 2) * y_factor)
    width := truncToInt (w * x_factor)
    height := truncToInt (h * y_factor) }

/-- The body of the proposal loop of `detect` for proposal `i`. -/
def decodeProposal (det : Detector) (raw_output : List ℚ) (num_proposals num_classes : Nat)
    (x_factor y_factor : ℚ) (i : Nat) (acc : Candidates) : Option Candidates :=
  match scanClasses raw_output num_proposals i (List.range num_classes) (0, 0) with
  | none => none
  | some best =>
    if best.1 > det.confidenceThreshold then
      match raw_output[0 * num_proposals + i]?, raw_output[1 * num_proposals + i]?,
          raw_output[2 * num_proposals + i]?, raw_output[3 * num_proposals + i]? with
      | some cx, some cy, some w, some h =>
        some { class_ids := acc.class_ids ++ [best.2]
               confidences := acc.confidences ++ [best.1]
               boxes := acc.boxes ++ [scaledBox cx cy w h x_factor y_factor] }
      | _, _, _, _ => none
    else some acc

/-- The proposal loop of `detect` over the proposals of a list, in order. -/
def decodeProposals (det : Detector) (raw_output : List ℚ) (num_proposals num_classes : Nat)
    (x_factor y_factor : ℚ) : List Nat → Candidates → Option Candidates
  | [], acc => some acc
  | i :: rest, acc =>
    match decodeProposal det raw_output num_proposals num_classes x_factor y_factor i acc with
    | none => none
    | some acc1 =>
      decodeProposals det raw_output num_proposals num_classes x_factor y_factor rest acc1

/-- Modelled from the spec: the Intersection-over-Union of two rectangles
(the overlap metric of `cv::dnn::NMSBoxes`, a library function whose source
is not part of the repository): the area of the intersection over the area
of the union, 0 when the union has area 0. -/
def iou (a b : Rect) : ℚ :=
  let iw := max 0 (min (a.x + a.width) (b.x + b.width) - max a.x b.x)
  let ih := max 0 (min (a.y + a.height) (b.y + b.height) - max a.y b.y)
  ((iw * ih : Int) : ℚ) / ((a.area + b.area - iw * ih : Int) : ℚ)

/-- Modelled from the spec: the greedy loop of non-maximum suppression over
candidate indices already in descending-confidence order: take the first
remaining index, emit it, discard every remaining index whose box has IoU
at least `nms_threshold` with it, and continue until the list is exhausted. -/
def nmsGreedy (boxes : List Rect) (nms_threshold : ℚ) : List Nat → List Nat
  | [] => []
  | i :: rest =>
    i :: nmsGreedy boxes nms_threshold
      (rest.filter fun k =>
        ¬ iou (boxes.getD i ⟨0, 0, 0, 0⟩) (boxes.getD k ⟨0, 0, 0, 0⟩) ≥ nms_threshold)
termination_by l => l.length
decreasing_by
  simp_wf
  exact Nat.lt_succ_of_le (List.length_filter_le _ _)

/-- Modelled from the spec: `cv::dnn::NMSBoxes(boxes, scores, score_threshold,
nms_threshold, indices)`, a library function whose source is not part of the
repository: keep the indices whose score exceeds the score floor, sort them by
descending score (stable), and run the greedy loop, independent of class. -/
def NMSBoxes (boxes : List Rect) (scores : List ℚ) (score_threshold nms_threshold : ℚ) :
    List Nat :=
  nmsGreedy boxes nms_threshold
    (List.insertionSort (fun i k => scores.getD i 0 ≥ scores.getD k 0)
      ((List.range boxes.length).filter fun i => scores.getD i 0 > score_threshold))

/-- The body of the last loop of `detect` : the `Detection` built for the
surviving index `idx`. -/
def buildDetection (det : Detector) (cands : Candidates) (idx : Nat) : Option Detection :=
  match cands.boxes[idx]?, cands.confidences[idx]?, cands.class_ids[idx]? with
  | some box, some confidence, some classId =>
    some { box := box
           confidence := confidence
           classId := (classId : Int)
           className :=
             if h : classId < det.classNames.length then det.classNames[classId]
             else "Unknown" }
  | _, _, _ => none

/-- The last loop of `detect` over the indices returned by the suppression. -/
def buildDetections (det : Detector) (cands : Candidates) : List Nat → Option (List Detection)
  | [] => some []
  | idx :: rest =>
    match buildDetection det cands idx with
    | none => none
    | some d =>
      match buildDetections det cands rest with
      | none => none
      | some ds => some (d :: ds)

/-- The candidates accumulated by the proposal loop of `detect`. -/
def decode (det : Detector) (raw_output : List ℚ) (num_proposals num_classes : Nat)
    (frame_cols frame_rows input_width input_height : Int) : Option Candidates :=
  decodeProposals det raw_output num_proposals num_classes
    ((frame_cols : ℚ) / (input_width : ℚ)) ((frame_rows : ℚ) / (input_height : ℚ))
    (List.range num_proposals) Candidates.empty

/-- The post-processing of `Detector::detect` : proposal loop, suppression,
construction of the detections. -/
def detect (det : Detector) (raw_output : List ℚ) (num_proposals num_classes : Nat)
    (frame_cols frame_rows input_width input_height : Int) : Option (List Detection) :=
  match decode det raw_output num_proposals num_classes frame_cols frame_rows
      input_width input_height with
  | none => none
  | some cands =>
    buildDetections det cands
      (NMSBoxes cands.boxes cands.confidences det.confidenceThreshold det.nmsThreshold)

/-! ## A variant of `update` without the explicit invalidation

The comparison program of the refinement claim: `update` with the assignment
`prevTrackedPlayerBox = std::nullopt` of the no-target branch removed. -/

/-- Steps 1 and 2 of the variant of `update` whose no-target branch does not
set `prevTrackedPlayerBox` to absent; the rest is `trackStep`. -/
def trackStepNoInvalidate (mc : MotorController) (detections : List Detection)
    (frameSize : Size) (current_time : ℚ) : MotorController × List Output :=
  match (findBestPlayer mc detections).trackedPlayerBox with
  | some box =>
    let r := calculateMotorCommands
      { findBestPlayer mc detections with frames_since_last_seen := 0 }
      box frameSize (updateDt mc current_time)
    ({ r.1 with last_detection_time := current_time }, [Output.motorCommand r.2])
  | none =>
    let n := (findBestPlayer mc detections).frames_since_last_seen + 1
    ({ findBestPlayer mc detections with frames_since_last_seen := n },
     if n > MAX_FRAMES_WITHOUT_DETECTION ∧ n < MAX_FRAMES_WITHOUT_DETECTION + 5 then
       [Output.motorCommand 0]
     else [])

/-- The variant of `update` without the explicit invalidation. -/
def updateNoInvalidate (mc : MotorController) (detections : List Detection)
    (frameSize : Size) (current_time : ℚ) : MotorController × List Output :=
  ((trackStepNoInvalidate mc detections frameSize current_time).1,
   (trackStepNoInvalidate mc detections frameSize current_time).2
     ++ handSignalScan detections)

/-- A run of calls of the variant, as `run`. -/
def runNoInvalidate (mc : MotorController) :
    List (List Detection × Size × ℚ) → MotorController × List (List Output)
  | [] => (mc, [])
  | call :: rest =>
    let r := updateNoInvalidate mc call.1 call.2.1 call.2.2
    let rs := runNoInvalidate r.1 rest
    (rs.1, r.2 :: rs.2)

/-! ## Helper lemmas: outputs -/

theorem commandsOf_append (xs ys : List Output) :
    commandsOf (xs ++ ys) = commandsOf xs ++ commandsOf ys := by
  induction xs with
  | nil => rfl
  | cons o rest ih => cases o <;> simp [commandsOf, ih]

theorem commandsOf_handSignalScan (detections : List Detection) :
    commandsOf (handSignalScan detections) = [] := by
  induction detections with
  | nil => rfl
  | cons d rest ih =>
    unfold handSignalScan
    split
    · rfl
    · exact ih

theorem commandsOf_update (mc : MotorController) (detections : List Detection)
    (frameSize : Size) (current_time : ℚ) :
    commandsOf (update mc detections frameSize current_time).2
      = commandsOf (trackStep mc detections frameSize current_time).2 := by
  simp [update, commandsOf_append, commandsOf_handSignalScan]

theorem clamp_bounds (v : ℚ) :
    MIN_COMMAND ≤ clamp v MIN_COMMAND MAX_COMMAND ∧ clamp v MIN_COMMAND MAX_COMMAND ≤ MAX_COMMAND := by
  unfold clamp MIN_COMMAND MAX_COMMAND
  split_ifs with h1 h2
  · norm_num
  · norm_num
  · exact ⟨not_lt.mp h1, not_lt.mp h2⟩

theorem clamp_cases (v : ℚ) :
    clamp v MIN_COMMAND MAX_COMMAND
      = if v > 255 then 255 else if v < -255 then -255 else v := by
  unfold clamp MIN_COMMAND MAX_COMMAND
  split_ifs with h1 h2 h3 <;> first | rfl | (exfalso; linarith)

theorem trackStep_found (mc : MotorController) (detections : List Detection)
    (frameSize : Size) (current_time : ℚ) (box : Rect)
    (h : (bestCandidate detections).2 = some box) :
    trackStep mc detections frameSize current_time
      = ({ (calculateMotorCommands
              { findBestPlayer mc detections with frames_since_last_seen := 0 }
              box frameSize (updateDt mc current_time)).1 with
            last_detection_time := current_time },
         [Output.motorCommand (calculateMotorCommands
              { findBestPlayer mc detections with frames_since_last_seen := 0 }
              box frameSize (updateDt mc current_time)).2]) := by
  have h' : (findBestPlayer mc detections).trackedPlayerBox = some box := h
  unfold trackStep
  rw [h']

theorem trackStep_missed (mc : MotorController) (detections : List Detection)
    (frameSize : Size) (current_time : ℚ)
    (h : (bestCandidate detections).2 = none) :
    trackStep mc detections frameSize current_time
      = ({ findBestPlayer mc detections with
            frames_since_last_seen := mc.frames_since_last_seen + 1
            prevTrackedPlayerBox := none },
         if mc.frames_since_last_seen + 1 > MAX_FRAMES_WITHOUT_DETECTION
             ∧ mc.frames_since_last_seen + 1 < MAX_FRAMES_WITHOUT_DETECTION + 5 then
           [Output.motorCommand 0]
         else []) := by
  have h' : (findBestPlayer mc detections).trackedPlayerBox = none := h
  unfold trackStep
  rw [h']
  rfl

/-! ## Claims about the controller -/

/-- C1: every pan value that one call of `update` hands to the hardware lies
in `[-255, 255]`; on the target-found branch the call emits exactly one pan
value, which is 255 when the raw PID command exceeds 255, -255 when it is
below -255 and the raw PID command otherwise (for the `dt` that `update`
computes, and in `calculateMotorCommands` for every `dt`). -/
theorem update_command_clamped (mc : MotorController) (detections : List Detection)
    (frameSize : Size) (current_time : ℚ) :
    (∀ pan ∈ commandsOf (update mc detections frameSize current_time).2,
        -255 ≤ pan ∧ pan ≤ 255)
    ∧ (∀ box, (findBestPlayer mc detections).trackedPlayerBox = some box →
        commandsOf (update mc detections frameSize current_time).2
          = [if panCommand { findBestPlayer mc detections with frames_since_last_seen := 0 }
                  box frameSize (updateDt mc current_time) > 255 then 255
             else if panCommand { findBestPlayer mc detections with frames_since_last_seen := 0 }
                  box frameSize (updateDt mc current_time) < -255 then -255
             else panCommand { findBestPlayer mc detections with frames_since_last_seen := 0 }
                  box frameSize (updateDt mc current_time)])
    ∧ (∀ (box : Rect) (dt : ℚ),
        (calculateMotorCommands mc box frameSize dt).2
          = if panCommand mc box frameSize dt > 255 then 255
            else if panCommand mc box frameSize dt < -255 then -255
            else panCommand mc box frameSize dt) := by
  refine ⟨?_, ?_, ?_⟩
  · intro pan hpan
    rw [commandsOf_update] at hpan
    cases hb : (bestCandidate detections).2 with
    | some box =>
      rw [trackStep_found mc detections frameSize current_time box hb] at hpan
      simp only [commandsOf, calculateMotorCommands, List.mem_singleton] at hpan
      subst hpan
      have := clamp_bounds (panCommand { findBestPlayer mc detections with
        frames_since_last_seen := 0 } box frameSize (updateDt mc current_time))
      simpa [MIN_COMMAND, MAX_COMMAND] using this
    | none =>
      rw [trackStep_missed mc detections frameSize current_time hb] at hpan
      dsimp only at hpan
      split_ifs at hpan
      · simp only [commandsOf, List.mem_singleton] at hpan
        subst hpan
        norm_num
      · simp [commandsOf] at hpan
  · intro box hbox
    rw [commandsOf_update, trackStep_found mc detections frameSize current_time box hbox]
    simp only [commandsOf, calculateMotorCommands, clamp_cases]
  · intro box dt
    simp only [calculateMotorCommands, clamp_cases]

/-- C2: from the initial state, 21 consecutive calls of `update` without any
detection emit the stop command on each of the calls 16, 17, 18 and 19 (four
stop commands, not one), and nothing on the calls 1 to 15, 20 and 21. -/
theorem stop_command_sent_four_times :
    (run MotorController.init (List.replicate 21 ([], ⟨640, 480⟩, 1))).2.map commandsOf
      = List.replicate 15 [] ++ List.replicate 4 [0] ++ List.replicate 2 [] := by
  decide

/-- C3: on a call of `update` in which no target is selected, the counter
`frames_since_last_seen` grows by exactly one; with `n` the new value, a pan
value is emitted iff `15 < n < 20`, in which case the emitted pan values are
the single value `0`, and nothing is emitted when `n ≤ 15` or `n ≥ 20`. -/
theorem update_missed_stop_window (mc : MotorController) (detections : List Detection)
    (frameSize : Size) (current_time : ℚ)
    (hmiss : (findBestPlayer mc detections).trackedPlayerBox = none) :
    (update mc detections frameSize current_time).1.frames_since_last_seen
        = mc.frames_since_last_seen + 1
    ∧ (commandsOf (update mc detections frameSize current_time).2 ≠ []
        ↔ 15 < mc.frames_since_last_seen + 1 ∧ mc.frames_since_last_seen + 1 < 20)
    ∧ (15 < mc.frames_since_last_seen + 1 ∧ mc.frames_since_last_seen + 1 < 20 →
        commandsOf (update mc detections frameSize current_time).2 = [0])
    ∧ (mc.frames_since_last_seen + 1 ≤ 15 ∨ 20 ≤ mc.frames_since_last_seen + 1 →
        commandsOf (update mc detections frameSize current_time).2 = []) := by
  have hstep := trackStep_missed mc detections frameSize current_time hmiss
  have hcmd := commandsOf_update mc detections frameSize current_time
  rw [hstep] at hcmd
  have hst : (update mc detections frameSize current_time).1.frames_since_last_seen
      = mc.frames_since_last_seen + 1 := by
    show (trackStep mc detections frameSize current_time).1.frames_since_last_seen = _
    rw [hstep]
  refine ⟨hst, ?_, ?_, ?_⟩
  · rw [hcmd]
    by_cases hw : mc.frames_since_last_seen + 1 > MAX_FRAMES_WITHOUT_DETECTION
        ∧ mc.frames_since_last_seen + 1 < MAX_FRAMES_WITHOUT_DETECTION + 5
    · simp only [if_pos hw, commandsOf]
      simpa [MAX_FRAMES_WITHOUT_DETECTION] using hw
    · simp only [if_neg hw, commandsOf]
      simpa [MAX_FRAMES_WITHOUT_DETECTION] using hw
  · intro hw
    rw [hcmd]
    have hw' : mc.frames_since_last_seen + 1 > MAX_FRAMES_WITHOUT_DETECTION
        ∧ mc.frames_since_last_seen + 1 < MAX_FRAMES_WITHOUT_DETECTION + 5 := by
      simpa [MAX_FRAMES_WITHOUT_DETECTION] using hw
    simp only [if_pos hw', commandsOf]
  · intro hw
    rw [hcmd]
    have hw' : ¬ (mc.frames_since_last_seen + 1 > MAX_FRAMES_WITHOUT_DETECTION
        ∧ mc.frames_since_last_seen + 1 < MAX_FRAMES_WITHOUT_DETECTION + 5) := by
      simp only [MAX_FRAMES_WITHOUT_DETECTION]
      omega
    simp only [if_neg hw', commandsOf]

/-- Witness of C3: the call that takes the counter from 15 to 16 with an empty
detection list. -/
theorem update_missed_stop_window_witness :
    (update { MotorController.init with frames_since_last_seen := 15 } []
        ⟨640, 480⟩ 1).1.frames_since_last_seen = 16
    ∧ commandsOf (update { MotorController.init with frames_since_last_seen := 15 } []
        ⟨640, 480⟩ 1).2 = [0] :=
  ⟨(update_missed_stop_window { MotorController.init with frames_since_last_seen := 15 } []
      ⟨640, 480⟩ 1 rfl).1,
   (update_missed_stop_window { MotorController.init with frames_since_last_seen := 15 } []
      ⟨640, 480⟩ 1 rfl).2.2.1 (by decide)⟩

/-! ## Helper lemmas: target selection -/

theorem foldl_findBestPlayerStep_none (detections : List Detection) :
    ∀ acc : ℚ × Option Rect,
      (detections.foldl findBestPlayerStep acc).2 = none
        ↔ acc.2 = none ∧ ∀ d ∈ detections, d.className = "Player" → (d.box.area : ℚ) ≤ acc.1 := by
  induction detections with
  | nil => intro acc; simp
  | cons d rest ih =>
    intro acc
    rw [List.foldl_cons, ih]
    unfold findBestPlayerStep
    by_cases hp : d.className = "Player"
    · by_cases ha : (d.box.area : ℚ) > acc.1
      · simp only [if_pos hp, if_pos ha]
        constructor
        · intro h; exact absurd h.1 (by simp)
        · intro h; exact absurd (h.2 d (List.mem_cons_self _ _) hp) (not_le.mpr ha)
      · simp only [if_pos hp, if_neg ha, List.mem_cons, forall_eq_or_imp]
        constructor
        · intro h; exact ⟨h.1, fun _ => not_lt.mp ha, h.2⟩
        · intro h; exact ⟨h.1, h.2.2⟩
    · simp only [if_neg hp, List.mem_cons, forall_eq_or_imp]
      constructor
      · intro h; exact ⟨h.1, fun hp' => absurd hp' hp, h.2⟩
      · intro h; exact ⟨h.1, h.2.2⟩

theorem foldl_findBestPlayerStep_first_max (detections : List Detection) :
    ∀ acc : ℚ × Option Rect,
      (detections.foldl findBestPlayerStep acc = acc
        ∧ ∀ d ∈ detections, d.className = "Player" → (d.box.area : ℚ) ≤ acc.1)
      ∨ ∃ pre d post, detections = pre ++ d :: post
          ∧ d.className = "Player"
          ∧ detections.foldl findBestPlayerStep acc = ((d.box.area : ℚ), some d.box)
          ∧ acc.1 < (d.box.area : ℚ)
          ∧ (∀ p ∈ pre, p.className = "Player" → (p.box.area : ℚ) < (d.box.area : ℚ))
          ∧ (∀ q ∈ post, q.className = "Player" → (q.box.area : ℚ) ≤ (d.box.area : ℚ)) := by
  induction detections with
  | nil => intro acc; left; simp
  | cons d0 rest ih =>
    intro acc
    rw [List.foldl_cons]
    by_cases hsel : d0.className = "Player" ∧ (d0.box.area : ℚ) > acc.1
    · have hstep : findBestPlayerStep acc d0 = ((d0.box.area : ℚ), some d0.box) := by
        simp [findBestPlayerStep, hsel.1, hsel.2]
      rw [hstep]
      right
      rcases ih ((d0.box.area : ℚ), some d0.box) with ⟨heq, hall⟩ | ⟨pre, d, post, hsplit, hp, hres, hgt, hpre, hpost⟩
      · exact ⟨[], d0, rest, rfl, hsel.1, heq, hsel.2, by simp, hall⟩
      · refine ⟨d0 :: pre, d, post, by rw [hsplit]; rfl, hp, hres, lt_trans hsel.2 hgt, ?_, hpost⟩
        intro p hmem hpp
        rcases List.mem_cons.mp hmem with rfl | hmem
        · exact hgt
        · exact hpre p hmem hpp
    · have hstep : findBestPlayerStep acc d0 = acc := by
        unfold findBestPlayerStep
        by_cases hp : d0.className = "Player"
        · have : ¬ (d0.box.area : ℚ) > acc.1 := fun h => hsel ⟨hp, h⟩
          simp [hp, this]
        · simp [hp]
      have hd0 : d0.className = "Player" → (d0.box.area : ℚ) ≤ acc.1 :=
        fun hp => not_lt.mp (fun h => hsel ⟨hp, h⟩)
      rw [hstep]
      rcases ih acc with ⟨heq, hall⟩ | ⟨pre, d, post, hsplit, hp, hres, hgt, hpre, hpost⟩
      · left
        refine ⟨heq, ?_⟩
        intro q hmem hq
        rcases List.mem_cons.mp hmem with rfl | hmem
        · exact hd0 hq
        · exact hall q hmem hq
      · right
        refine ⟨d0 :: pre, d, post, by rw [hsplit]; rfl, hp, hres, hgt, ?_, hpost⟩
        intro p hmem hpp
        rcases List.mem_cons.mp hmem with rfl | hmem
        · exact lt_of_le_of_lt (hd0 hpp) hgt
        · exact hpre p hmem hpp

/-- C4: when `findBestPlayer` selects a target, the selected box is the box
of a "Player" detection of the list, no "Player" detection after it has a
larger area and every "Player" detection before it has a strictly smaller
area (largest area, first in input order among equals); two "Player"
detections of areas 500 and 900, in either order, select the box of area
900. -/
theorem findBestPlayer_selects_first_largest (mc : MotorController) :
    (∀ (detections : List Detection) (box : Rect),
      (findBestPlayer mc detections).trackedPlayerBox = some box →
      ∃ pre d post, detections = pre ++ d :: post
        ∧ d.className = "Player" ∧ d.box = box
        ∧ (∀ p ∈ pre, p.className = "Player" → p.box.area < box.area)
        ∧ (∀ q ∈ post, q.className = "Player" → q.box.area ≤ box.area)
        ∧ (∀ q ∈ detections, q.className = "Player" → q.box.area ≤ box.area))
    ∧ (∀ d1 d2 : Detection, d1.className = "Player" → d2.className = "Player" →
        d1.box.area = 500 → d2.box.area = 900 →
        (findBestPlayer mc [d1, d2]).trackedPlayerBox = some d2.box
        ∧ (findBestPlayer mc [d2, d1]).trackedPlayerBox = some d2.box) := by
  constructor
  · intro detections box hsel
    have hsel' : (detections.foldl findBestPlayerStep (0, none)).2 = some box := hsel
    rcases foldl_findBestPlayerStep_first_max detections (0, none) with
      ⟨heq, _⟩ | ⟨pre, d, post, hsplit, hp, hres, _, hpre, hpost⟩
    · rw [heq] at hsel'
      exact absurd hsel' (by simp)
    · rw [hres] at hsel'
      have hbox : d.box = box := Option.some.inj hsel'
      subst hbox
      have hpre' : ∀ p ∈ pre, p.className = "Player" → p.box.area < d.box.area :=
        fun p hm hpp => by exact_mod_cast hpre p hm hpp
      have hpost' : ∀ q ∈ post, q.className = "Player" → q.box.area ≤ d.box.area :=
        fun q hm hq => by exact_mod_cast hpost q hm hq
      refine ⟨pre, d, post, hsplit, hp, rfl, hpre', hpost', ?_⟩
      intro q hmem hq
      rw [hsplit] at hmem
      rcases List.mem_append.mp hmem with hm | hm
      · exact le_of_lt (hpre' q hm hq)
      · rcases List.mem_cons.mp hm with rfl | hm
        · exact le_refl _
        · exact hpost' q hm hq
  · intro d1 d2 h1 h2 a1 a2
    constructor <;>
      norm_num [findBestPlayer, bestCandidate, findBestPlayerStep, h1, h2, a1, a2]

/-- Witness of C4: a "Player" box of area 500 followed by "Player" boxes of
areas 900 and 900; the first box of area 900 is selected. -/
theorem findBestPlayer_selects_first_largest_witness :
    (findBestPlayer MotorController.init
        [⟨1, 3 / 5, ⟨0, 0, 25, 20⟩, "Player"⟩, ⟨1, 4 / 5, ⟨5, 5, 30, 30⟩, "Player"⟩,
         ⟨1, 9 / 10, ⟨7, 7, 45, 20⟩, "Player"⟩]).trackedPlayerBox = some ⟨5, 5, 30, 30⟩
    ∧ ∃ pre d post,
        [(⟨1, 3 / 5, ⟨0, 0, 25, 20⟩, "Player"⟩ : Detection), ⟨1, 4 / 5, ⟨5, 5, 30, 30⟩, "Player"⟩,
         ⟨1, 9 / 10, ⟨7, 7, 45, 20⟩, "Player"⟩] = pre ++ d :: post
        ∧ d.className = "Player" ∧ d.box = ⟨5, 5, 30, 30⟩
        ∧ (∀ p ∈ pre, p.className = "Player" → p.box.area < Rect.area ⟨5, 5, 30, 30⟩)
        ∧ (∀ q ∈ post, q.className = "Player" → q.box.area ≤ Rect.area ⟨5, 5, 30, 30⟩)
        ∧ (∀ q ∈ [(⟨1, 3 / 5, ⟨0, 0, 25, 20⟩, "Player"⟩ : Detection),
              ⟨1, 4 / 5, ⟨5, 5, 30, 30⟩, "Player"⟩, ⟨1, 9 / 10, ⟨7, 7, 45, 20⟩, "Player"⟩],
            q.className = "Player" → q.box.area ≤ Rect.area ⟨5, 5, 30, 30⟩) :=
  ⟨by decide,
   (findBestPlayer_selects_first_largest MotorController.init).1 _ _ (by decide)⟩

/-- C5 as stated fails: a list whose only detection is a "Player" with a box
of width 0 contains a "Player" detection, yet no target is selected. -/
theorem findBestPlayer_zero_area_player_absent :
    ¬ ((findBestPlayer MotorController.init
          [⟨1, 9 / 10, ⟨100, 50, 0, 40⟩, "Player"⟩]).trackedPlayerBox = none
        ↔ ¬ ∃ d ∈ [(⟨1, 9 / 10, ⟨100, 50, 0, 40⟩, "Player"⟩ : Detection)],
              d.className = "Player") := by
  decide

/-- C5 amended: after `findBestPlayer` the tracked box is absent iff the list
holds no "Player" detection whose box area (width times height) is positive;
whenever a "Player" detection of positive area exists, the tracked box is
present. -/
theorem findBestPlayer_absent_iff_no_positive_player (mc : MotorController)
    (detections : List Detection) :
    ((findBestPlayer mc detections).trackedPlayerBox = none
      ↔ ¬ ∃ d ∈ detections, d.className = "Player" ∧ 0 < d.box.area)
    ∧ ((∃ d ∈ detections, d.className = "Player" ∧ 0 < d.box.area) →
        ∃ box, (findBestPlayer mc detections).trackedPlayerBox = some box) := by
  have key : (findBestPlayer mc detections).trackedPlayerBox = none
      ↔ ¬ ∃ d ∈ detections, d.className = "Player" ∧ 0 < d.box.area := by
    show (detections.foldl findBestPlayerStep (0, none)).2 = none ↔ _
    rw [foldl_findBestPlayerStep_none]
    constructor
    · rintro ⟨_, hall⟩ ⟨d, hm, hp, hpos⟩
      have : (d.box.area : ℚ) ≤ 0 := hall d hm hp
      have : d.box.area ≤ 0 := by exact_mod_cast this
      omega
    · intro h
      refine ⟨rfl, fun d hm hp => ?_⟩
      have : ¬ 0 < d.box.area := fun hpos => h ⟨d, hm, hp, hpos⟩
      have : d.box.area ≤ 0 := not_lt.mp this
      show (d.box.area : ℚ) ≤ 0
      exact_mod_cast this
  refine ⟨key, fun hex => ?_⟩
  cases hb : (findBestPlayer mc detections).trackedPlayerBox with
  | some box => exact ⟨box, rfl⟩
  | none => exact absurd hex (key.mp hb)

/-! ## Helper lemmas: the proposal loop -/

theorem classScore_index_lt (len N C i j : Nat) (hshape : len = (4 + C) * N) (hi : i < N)
    (hj : j < C) : 4 * N + i + j * N < len := by
  subst hshape
  have h1 : (j + 1) * N ≤ C * N := Nat.mul_le_mul_right N hj
  have h2 : (j + 1) * N = j * N + N := by ring
  have h3 : (4 + C) * N = 4 * N + C * N := by ring
  omega

theorem boxParam_index_lt (len N C i k : Nat) (hshape : len = (4 + C) * N) (hi : i < N)
    (hk : k < 4) : k * N + i < len := by
  subst hshape
  have h1 : (k + 1) * N ≤ 4 * N := Nat.mul_le_mul_right N hk
  have h2 : (k + 1) * N = k * N + N := by ring
  have h3 : (4 + C) * N = 4 * N + C * N := by ring
  omega

theorem classScore_offset (N i j : Nat) : (4 + j) * N + i = 4 * N + i + j * N := by ring

theorem range_split (C c : Nat) (pre post : List Nat) (h : List.range C = pre ++ c :: post) :
    c < C ∧ ∀ j, j < c ↔ j ∈ pre := by
  have hlen : (List.range C).length = pre.length + (post.length + 1) := by
    rw [h]; simp
  rw [List.length_range] at hlen
  have hget : ∀ k (hk : k < C), (pre ++ c :: post)[k]? = some k := by
    intro k hk
    rw [← h, List.getElem?_range hk]
  have hc : c = pre.length := by
    have := hget pre.length (by omega)
    rw [List.getElem?_append_right (le_refl _)] at this
    simpa using this
  refine ⟨by omega, fun j => ⟨fun hj => ?_, fun hj => ?_⟩⟩
  · have hj' : j < pre.length := by omega
    have := hget j (by omega)
    rw [List.getElem?_append_left hj'] at this
    exact List.getElem?_mem this
  · obtain ⟨k, hk, hkj⟩ := List.getElem_of_mem hj
    have := hget k (by omega)
    rw [List.getElem?_append_left hk, List.getElem?_eq_getElem hk, hkj] at this
    have : j = k := Option.some.inj this
    omega

theorem scanClasses_spec (raw_output : List ℚ) (N i : Nat) (sc : Nat → ℚ) (js : List Nat)
    (hread : ∀ j ∈ js, raw_output[4 * N + i + j * N]? = some (sc j)) :
    ∀ acc : ℚ × Nat,
      (scanClasses raw_output N i js acc = some acc ∧ ∀ j ∈ js, sc j ≤ acc.1)
      ∨ ∃ pre c post, js = pre ++ c :: post
          ∧ scanClasses raw_output N i js acc = some (sc c, c)
          ∧ acc.1 < sc c
          ∧ (∀ p ∈ pre, sc p < sc c)
          ∧ (∀ q ∈ post, sc q ≤ sc c) := by
  induction js with
  | nil => intro acc; left; simp [scanClasses]
  | cons j0 rest ih =>
    intro acc
    have hrest : ∀ j ∈ rest, raw_output[4 * N + i + j * N]? = some (sc j) :=
      fun j hj => hread j (List.mem_cons_of_mem _ hj)
    have h0 := hread j0 (List.mem_cons_self _ _)
    by_cases hgt : sc j0 > acc.1
    · have hstep : scanClasses raw_output N i (j0 :: rest) acc
          = scanClasses raw_output N i rest (sc j0, j0) := by
        simp only [scanClasses, h0, if_pos hgt]
      rw [hstep]
      right
      rcases ih hrest (sc j0, j0) with ⟨heq, hall⟩ | ⟨pre, c, post, hsplit, hres, hlt, hpre, hpost⟩
      · exact ⟨[], j0, rest, rfl, heq, hgt, by simp, hall⟩
      · refine ⟨j0 :: pre, c, post, by rw [hsplit]; rfl, hres, lt_trans hgt hlt, ?_, hpost⟩
        intro p hmem
        rcases List.mem_cons.mp hmem with rfl | hmem
        · exact hlt
        · exact hpre p hmem
    · have hstep : scanClasses raw_output N i (j0 :: rest) acc
          = scanClasses raw_output N i rest acc := by
        simp only [scanClasses, h0, if_neg hgt]
      rw [hstep]
      rcases ih hrest acc with ⟨heq, hall⟩ | ⟨pre, c, post, hsplit, hres, hlt, hpre, hpost⟩
      · left
        refine ⟨heq, ?_⟩
        intro q hmem
        rcases List.mem_cons.mp hmem with rfl | hmem
        · exact not_lt.mp hgt
        · exact hall q hmem
      · right
        refine ⟨j0 :: pre, c, post, by rw [hsplit]; rfl, hres, hlt, ?_, hpost⟩
        intro p hmem
        rcases List.mem_cons.mp hmem with rfl | hmem
        · exact lt_of_le_of_lt (not_lt.mp hgt) hlt
        · exact hpre p hmem

/-- The class score of proposal `i` for class `j`, read with a default. -/
theorem classScore_read (raw_output : List ℚ) (N C i : Nat)
    (hshape : raw_output.length = (4 + C) * N) (hi : i < N) :
    ∀ j ∈ List.range C,
      raw_output[4 * N + i + j * N]? = some (raw_output.getD (4 * N + i + j * N) 0) := by
  intro j hj
  have hlt := classScore_index_lt raw_output.length N C i j hshape hi (List.mem_range.mp hj)
  rw [List.getD_eq_getElem?_getD, List.getElem?_eq_getElem hlt]
  rfl

/-- The scan of proposal `i` over all classes returns the pair of the largest
score above 0 and the first class attaining it, or `(0, 0)` when no score is
positive. -/
theorem scanClasses_range (raw_output : List ℚ) (N C i : Nat)
    (hshape : raw_output.length = (4 + C) * N) (hi : i < N) :
    (scanClasses raw_output N i (List.range C) (0, 0) = some (0, 0)
      ∧ ∀ j < C, raw_output.getD (4 * N + i + j * N) 0 ≤ 0)
    ∨ ∃ c, c < C
        ∧ scanClasses raw_output N i (List.range C) (0, 0)
            = some (raw_output.getD (4 * N + i + c * N) 0, c)
        ∧ 0 < raw_output.getD (4 * N + i + c * N) 0
        ∧ (∀ j < c, raw_output.getD (4 * N + i + j * N) 0
            < raw_output.getD (4 * N + i + c * N) 0)
        ∧ (∀ j < C, raw_output.getD (4 * N + i + j * N) 0
            ≤ raw_output.getD (4 * N + i + c * N) 0) := by
  rcases scanClasses_spec raw_output N i (fun j => raw_output.getD (4 * N + i + j * N) 0)
      (List.range C) (classScore_read raw_output N C i hshape hi) (0, 0) with
    ⟨heq, hall⟩ | ⟨pre, c, post, hsplit, hres, hlt, hpre, hpost⟩
  · left
    exact ⟨heq, fun j hj => hall j (List.mem_range.mpr hj)⟩
  · right
    obtain ⟨hc, hmem⟩ := range_split C c pre post hsplit
    refine ⟨c, hc, hres, hlt, fun j hj => hpre j ((hmem j).mp hj), fun j hj => ?_⟩
    have hj' : j ∈ pre ++ c :: post := by rw [← hsplit]; exact List.mem_range.mpr hj
    rcases List.mem_append.mp hj' with hm | hm
    · exact le_of_lt (hpre j hm)
    · rcases List.mem_cons.mp hm with rfl | hm
      · exact le_refl _
      · exact hpost j hm

theorem boxParam_read (raw_output : List ℚ) (N C i k : Nat)
    (hshape : raw_output.length = (4 + C) * N) (hi : i < N) (hk : k < 4) :
    raw_output[k * N + i]? = some (raw_output.getD (k * N + i) 0) := by
  have hlt := boxParam_index_lt raw_output.length N C i k hshape hi hk
  rw [List.getD_eq_getElem?_getD, List.getElem?_eq_getElem hlt]
  rfl

/-- The body of the proposal loop never reads outside a tensor of the right
size, and pushes one candidate exactly when the scanned maximum exceeds the
confidence threshold. -/
theorem decodeProposal_spec (det : Detector) (raw_output : List ℚ) (N C : Nat)
    (x_factor y_factor : ℚ) (i : Nat) (acc : Candidates)
    (hshape : raw_output.length = (4 + C) * N) (hi : i < N) :
    ∃ best, scanClasses raw_output N i (List.range C) (0, 0) = some best
      ∧ decodeProposal det raw_output N C x_factor y_factor i acc
          = some (if best.1 > det.confidenceThreshold then
              { class_ids := acc.class_ids ++ [best.2]
                confidences := acc.confidences ++ [best.1]
                boxes := acc.boxes ++ [scaledBox (raw_output.getD (0 * N + i) 0)
                  (raw_output.getD (1 * N + i) 0) (raw_output.getD (2 * N + i) 0)
                  (raw_output.getD (3 * N + i) 0) x_factor y_factor] }
            else acc) := by
  have hscan : ∃ best, scanClasses raw_output N i (List.range C) (0, 0) = some best := by
    rcases scanClasses_range raw_output N C i hshape hi with ⟨h, _⟩ | ⟨c, _, h, _⟩
    · exact ⟨_, h⟩
    · exact ⟨_, h⟩
  obtain ⟨best, hbest⟩ := hscan
  refine ⟨best, hbest, ?_⟩
  unfold decodeProposal
  rw [hbest]
  by_cases hgt : best.1 > det.confidenceThreshold
  · simp only [if_pos hgt]
    rw [boxParam_read raw_output N C i 0 hshape hi (by omega),
      boxParam_read raw_output N C i 1 hshape hi (by omega),
      boxParam_read raw_output N C i 2 hshape hi (by omega),
      boxParam_read raw_output N C i 3 hshape hi (by omega)]
  · simp only [if_neg hgt]

/-- A proposal whose class scores are all at most a non-negative threshold
leaves the candidate vectors unchanged. -/
theorem decodeProposal_skip (det : Detector) (raw_output : List ℚ) (N C : Nat)
    (x_factor y_factor : ℚ) (i : Nat) (acc : Candidates)
    (hshape : raw_output.length = (4 + C) * N) (hi : i < N)
    (hthr : 0 ≤ det.confidenceThreshold)
    (hlow : ∀ j < C, raw_output.getD (4 * N + i + j * N) 0 ≤ det.confidenceThreshold) :
    decodeProposal det raw_output N C x_factor y_factor i acc = some acc := by
  obtain ⟨best, hbest, hdec⟩ := decodeProposal_spec det raw_output N C x_factor y_factor i acc
    hshape hi
  rw [hdec]
  have hle : ¬ best.1 > det.confidenceThreshold := by
    rcases scanClasses_range raw_output N C i hshape hi with ⟨h, _⟩ | ⟨c, hc, h, _⟩
    · rw [h] at hbest
      have : best = (0, 0) := (Option.some.inj hbest).symm
      rw [this]
      exact not_lt.mpr hthr
    · rw [h] at hbest
      have : best = (raw_output.getD (4 * N + i + c * N) 0, c) := (Option.some.inj hbest).symm
      rw [this]
      exact not_lt.mpr (hlow c hc)
  rw [if_neg hle]

/-- The proposal loop succeeds on a tensor of the right size and keeps the
three vectors of equal length with every confidence above the threshold. -/
theorem decodeProposals_spec (det : Detector) (raw_output : List ℚ) (N C : Nat)
    (x_factor y_factor : ℚ) (hshape : raw_output.length = (4 + C) * N) (is : List Nat)
    (his : ∀ i ∈ is, i < N) :
    ∀ acc : Candidates,
      acc.class_ids.length = acc.confidences.length →
      acc.boxes.length = acc.confidences.length →
      (∀ c ∈ acc.confidences, c > det.confidenceThreshold) →
      ∃ res, decodeProposals det raw_output N C x_factor y_factor is acc = some res
        ∧ res.class_ids.length = res.confidences.length
        ∧ res.boxes.length = res.confidences.length
        ∧ ∀ c ∈ res.confidences, c > det.confidenceThreshold := by
  induction is with
  | nil => intro acc h1 h2 h3; exact ⟨acc, rfl, h1, h2, h3⟩
  | cons i rest ih =>
    intro acc h1 h2 h3
    obtain ⟨best, _, hdec⟩ := decodeProposal_spec det raw_output N C x_factor y_factor i acc
      hshape (his i (List.mem_cons_self _ _))
    have hrest : ∀ k ∈ rest, k < N := fun k hk => his k (List.mem_cons_of_mem _ hk)
    simp only [decodeProposals, hdec]
    by_cases hgt : best.1 > det.confidenceThreshold
    · rw [if_pos hgt]
      apply ih hrest
      · simp [h1]
      · simp [h2]
      · intro c hc
        rcases List.mem_append.mp hc with hc | hc
        · exact h3 c hc
        · rw [List.mem_singleton.mp hc]; exact hgt
    · rw [if_neg hgt]
      exact ih hrest acc h1 h2 h3

theorem decodeProposals_skip_all (det : Detector) (raw_output : List ℚ) (N C : Nat)
    (x_factor y_factor : ℚ) (hshape : raw_output.length = (4 + C) * N)
    (hthr : 0 ≤ det.confidenceThreshold) (is : List Nat)
    (his : ∀ i ∈ is, i < N)
    (hlow : ∀ i ∈ is, ∀ j < C,
      raw_output.getD (4 * N + i + j * N) 0 ≤ det.confidenceThreshold) :
    ∀ acc : Candidates,
      decodeProposals det raw_output N C x_factor y_factor is acc = some acc := by
  induction is with
  | nil => intro acc; rfl
  | cons i rest ih =>
    intro acc
    simp only [decodeProposals,
      decodeProposal_skip det raw_output N C x_factor y_factor i acc hshape
        (his i (List.mem_cons_self _ _)) hthr (hlow i (List.mem_cons_self _ _))]
    exact ih (fun k hk => his k (List.mem_cons_of_mem _ hk))
      (fun k hk => hlow k (List.mem_cons_of_mem _ hk)) acc

/-! ## Helper lemmas: suppression and construction of the detections -/

theorem nmsGreedy_nil (boxes : List Rect) (t : ℚ) : nmsGreedy boxes t [] = [] := by
  rw [nmsGreedy]

theorem nmsGreedy_cons (boxes : List Rect) (t : ℚ) (i : Nat) (rest : List Nat) :
    nmsGreedy boxes t (i :: rest)
      = i :: nmsGreedy boxes t
          (rest.filter fun k =>
            ¬ iou (boxes.getD i ⟨0, 0, 0, 0⟩) (boxes.getD k ⟨0, 0, 0, 0⟩) ≥ t) := by
  rw [nmsGreedy]

theorem nmsGreedy_sublist (boxes : List Rect) (t : ℚ) :
    ∀ (n : Nat) (l : List Nat), l.length ≤ n → (nmsGreedy boxes t l).Sublist l := by
  intro n
  induction n with
  | zero =>
    intro l hl
    have : l = [] := List.length_eq_zero.mp (Nat.le_zero.mp hl)
    subst this
    rw [nmsGreedy_nil]
  | succ n ih =>
    intro l hl
    cases l with
    | nil => rw [nmsGreedy_nil]
    | cons i rest =>
      rw [nmsGreedy_cons]
      have hlen : (rest.filter fun k =>
          ¬ iou (boxes.getD i ⟨0, 0, 0, 0⟩) (boxes.getD k ⟨0, 0, 0, 0⟩) ≥ t).length ≤ n :=
        le_trans (List.length_filter_le _ _) (by simpa using hl)
      exact ((ih _ hlen).trans (List.filter_sublist _)).cons₂ i

theorem NMSBoxes_index_lt (boxes : List Rect) (scores : List ℚ) (st nt : ℚ) :
    ∀ idx ∈ NMSBoxes boxes scores st nt, idx < boxes.length := by
  intro idx hidx
  unfold NMSBoxes at hidx
  have h1 := (nmsGreedy_sublist boxes nt _ _ (le_refl _)).subset hidx
  have h2 := (List.perm_insertionSort _ _).subset h1
  exact List.mem_range.mp (List.mem_filter.mp h2).1

theorem buildDetection_spec (det : Detector) (cands : Candidates) (idx : Nat)
    (h1 : cands.class_ids.length = cands.confidences.length)
    (h2 : cands.boxes.length = cands.confidences.length)
    (hidx : idx < cands.boxes.length) :
    ∃ box confidence classId,
      cands.boxes[idx]? = some box ∧ cands.confidences[idx]? = some confidence
      ∧ cands.class_ids[idx]? = some classId
      ∧ buildDetection det cands idx
          = some { box := box
                   confidence := confidence
                   classId := (classId : Int)
                   className :=
                     if h : classId < det.classNames.length then det.classNames[classId]
                     else "Unknown" } := by
  have hb : idx < cands.boxes.length := hidx
  have hc : idx < cands.confidences.length := by omega
  have hi : idx < cands.class_ids.length := by omega
  refine ⟨cands.boxes[idx], cands.confidences[idx], cands.class_ids[idx],
    List.getElem?_eq_getElem hb, List.getElem?_eq_getElem hc, List.getElem?_eq_getElem hi, ?_⟩
  unfold buildDetection
  rw [List.getElem?_eq_getElem hb, List.getElem?_eq_getElem hc, List.getElem?_eq_getElem hi]

theorem buildDetections_spec (det : Detector) (cands : Candidates)
    (h1 : cands.class_ids.length = cands.confidences.length)
    (h2 : cands.boxes.length = cands.confidences.length) (idxs : List Nat)
    (hidxs : ∀ idx ∈ idxs, idx < cands.boxes.length) :
    ∃ ds, buildDetections det cands idxs = some ds
      ∧ ∀ d ∈ ds, ∃ idx ∈ idxs, buildDetection det cands idx = some d := by
  induction idxs with
  | nil => exact ⟨[], rfl, by simp⟩
  | cons idx rest ih =>
    obtain ⟨ds, hds, hall⟩ := ih (fun k hk => hidxs k (List.mem_cons_of_mem _ hk))
    obtain ⟨box, conf, cid, _, _, _, hd0⟩ := buildDetection_spec det cands idx h1 h2
      (hidxs idx (List.mem_cons_self _ _))
    obtain ⟨d0, hd⟩ : ∃ d0, buildDetection det cands idx = some d0 := ⟨_, hd0⟩
    refine ⟨d0 :: ds, by simp only [buildDetections, hd, hds], ?_⟩
    intro d hd'
    rcases List.mem_cons.mp hd' with rfl | hm
    · exact ⟨idx, List.mem_cons_self _ _, hd⟩
    · obtain ⟨k, hk, hkd⟩ := hall d hm
      exact ⟨k, List.mem_cons_of_mem _ hk, hkd⟩

theorem classScore_getD (raw_output : List ℚ) (N C i j : Nat)
    (hshape : raw_output.length = (4 + C) * N) (hi : i < N) (hj : j < C) :
    raw_output[(4 + j) * N + i]? = some (raw_output.getD (4 * N + i + j * N) 0) := by
  rw [classScore_offset]
  exact classScore_read raw_output N C i hshape hi j (List.mem_range.mpr hj)

theorem decodeProposals_without (det : Detector) (raw_output : List ℚ) (N C : Nat)
    (x_factor y_factor : ℚ) (i : Nat)
    (hskip : ∀ acc, decodeProposal det raw_output N C x_factor y_factor i acc = some acc)
    (is : List Nat) :
    ∀ acc : Candidates,
      decodeProposals det raw_output N C x_factor y_factor is acc
        = decodeProposals det raw_output N C x_factor y_factor (is.filter (· ≠ i)) acc := by
  induction is with
  | nil => intro acc; rfl
  | cons k rest ih =>
    intro acc
    by_cases hk : k = i
    · subst hk
      simp only [decodeProposals, hskip, ne_eq, not_true_eq_false, decide_False,
        Bool.false_eq_true, not_false_eq_true, List.filter_cons_of_neg]
      exact ih acc
    · have hkeep : (k :: rest).filter (· ≠ i) = k :: rest.filter (· ≠ i) := by
        simp [List.filter_cons, hk]
      rw [hkeep]
      simp only [decodeProposals]
      cases decodeProposal det raw_output N C x_factor y_factor k acc with
      | none => rfl
      | some acc1 => exact ih acc1

/-- A proposal with some class score above the threshold is pushed, with the
scanned pair and the scaled box. -/
theorem decodeProposal_retained (det : Detector) (raw_output : List ℚ) (N C : Nat)
    (x_factor y_factor : ℚ) (i : Nat) (acc : Candidates)
    (hshape : raw_output.length = (4 + C) * N) (hi : i < N)
    (hret : ∃ j < C, ∃ s, raw_output[(4 + j) * N + i]? = some s ∧ s > det.confidenceThreshold) :
    ∃ best, scanClasses raw_output N i (List.range C) (0, 0) = some best
      ∧ decodeProposal det raw_output N C x_factor y_factor i acc
          = some { class_ids := acc.class_ids ++ [best.2]
                   confidences := acc.confidences ++ [best.1]
                   boxes := acc.boxes ++ [scaledBox (raw_output.getD (0 * N + i) 0)
                     (raw_output.getD (1 * N + i) 0) (raw_output.getD (2 * N + i) 0)
                     (raw_output.getD (3 * N + i) 0) x_factor y_factor] } := by
  obtain ⟨best, hbest, hdec⟩ := decodeProposal_spec det raw_output N C x_factor y_factor i acc
    hshape hi
  obtain ⟨j, hj, s, hs, hgt⟩ := hret
  rw [classScore_getD raw_output N C i j hshape hi hj] at hs
  have hs' : raw_output.getD (4 * N + i + j * N) 0 = s := Option.some.inj hs
  have hbig : best.1 > det.confidenceThreshold := by
    rcases scanClasses_range raw_output N C i hshape hi with ⟨h, hall⟩ | ⟨c, hc, h, _, _, hmax⟩
    · rw [h] at hbest
      rw [← Option.some.inj hbest]
      have := hall j hj
      rw [hs'] at this
      exact lt_of_lt_of_le hgt this
    · rw [h] at hbest
      rw [← Option.some.inj hbest]
      have := hmax j hj
      rw [hs'] at this
      exact lt_of_lt_of_le hgt this
  rw [if_pos hbig] at hdec
  exact ⟨best, hbest, hdec⟩

theorem decode_spec (det : Detector) (raw_output : List ℚ) (N C : Nat)
    (frame_cols frame_rows input_width input_height : Int)
    (hshape : raw_output.length = (4 + C) * N) :
    ∃ cands, decode det raw_output N C frame_cols frame_rows input_width input_height
        = some cands
      ∧ cands.class_ids.length = cands.confidences.length
      ∧ cands.boxes.length = cands.confidences.length
      ∧ ∀ c ∈ cands.confidences, c > det.confidenceThreshold := by
  unfold decode
  exact decodeProposals_spec det raw_output N C _ _ hshape (List.range N)
    (fun i hi => List.mem_range.mp hi) Candidates.empty rfl rfl (by simp [Candidates.empty])

/-- On a tensor of the right size `detect` returns a list, each element of
which is built by `buildDetection` from an index into candidate vectors of
equal length whose confidences all exceed the threshold. -/
theorem detect_spec (det : Detector) (raw_output : List ℚ) (N C : Nat)
    (frame_cols frame_rows input_width input_height : Int)
    (hshape : raw_output.length = (4 + C) * N) :
    ∃ cands ds,
      decode det raw_output N C frame_cols frame_rows input_width input_height = some cands
      ∧ detect det raw_output N C frame_cols frame_rows input_width input_height = some ds
      ∧ (∀ c ∈ cands.confidences, c > det.confidenceThreshold)
      ∧ ∀ d ∈ ds, ∃ idx, buildDetection det cands idx = some d := by
  obtain ⟨cands, hdec, h1, h2, h3⟩ := decode_spec det raw_output N C frame_cols frame_rows
    input_width input_height hshape
  obtain ⟨ds, hds, hall⟩ := buildDetections_spec det cands h1 h2
    (NMSBoxes cands.boxes cands.confidences det.confidenceThreshold det.nmsThreshold)
    (NMSBoxes_index_lt _ _ _ _)
  refine ⟨cands, ds, hdec, ?_, h3, ?_⟩
  · unfold detect
    rw [hdec]
    exact hds
  · intro d hd
    obtain ⟨idx, _, hidx⟩ := hall d hd
    exact ⟨idx, hidx⟩

theorem buildDetection_fields (det : Detector) (cands : Candidates) (idx : Nat)
    (d : Detection) (h : buildDetection det cands idx = some d) :
    ∃ classId : Nat, cands.class_ids[idx]? = some classId
      ∧ cands.confidences[idx]? = some d.confidence
      ∧ cands.boxes[idx]? = some d.box
      ∧ d.classId = (classId : Int)
      ∧ d.className = if h : classId < det.classNames.length then det.classNames[classId]
          else "Unknown" := by
  unfold buildDetection at h
  split at h
  · rename_i box conf cid hb hc hi
    have hd := Option.some.inj h
    subst hd
    exact ⟨cid, hi, hc, hb, rfl, rfl⟩
  · exact absurd h (by simp)

theorem iou_comm (a b : Rect) : iou a b = iou b a := by
  unfold iou
  rw [min_comm (a.x + a.width), max_comm a.x, min_comm (a.y + a.height), max_comm a.y,
    add_comm a.area]

theorem nmsGreedy_pairwise (boxes : List Rect) (t : ℚ) :
    ∀ (n : Nat) (l : List Nat), l.length ≤ n →
      (nmsGreedy boxes t l).Pairwise fun i k =>
        ¬ iou (boxes.getD i ⟨0, 0, 0, 0⟩) (boxes.getD k ⟨0, 0, 0, 0⟩) ≥ t := by
  intro n
  induction n with
  | zero =>
    intro l hl
    have : l = [] := List.length_eq_zero.mp (Nat.le_zero.mp hl)
    subst this
    rw [nmsGreedy_nil]
    exact List.Pairwise.nil
  | succ n ih =>
    intro l hl
    cases l with
    | nil => rw [nmsGreedy_nil]; exact List.Pairwise.nil
    | cons i rest =>
      rw [nmsGreedy_cons]
      have hlen : (rest.filter fun k =>
          ¬ iou (boxes.getD i ⟨0, 0, 0, 0⟩) (boxes.getD k ⟨0, 0, 0, 0⟩) ≥ t).length ≤ n :=
        le_trans (List.length_filter_le _ _) (by simpa using hl)
      refine List.Pairwise.cons ?_ (ih _ hlen)
      intro k hk
      have hk1 := (nmsGreedy_sublist boxes t _ _ (le_refl _)).subset hk
      have hk2 := (List.mem_filter.mp hk1).2
      exact of_decide_eq_true hk2

theorem nmsGreedy_of_pairwise (boxes : List Rect) (t : ℚ) (l : List Nat)
    (h : l.Pairwise fun i k =>
      ¬ iou (boxes.getD i ⟨0, 0, 0, 0⟩) (boxes.getD k ⟨0, 0, 0, 0⟩) ≥ t) :
    nmsGreedy boxes t l = l := by
  induction l with
  | nil => exact nmsGreedy_nil boxes t
  | cons i rest ih =>
    rw [nmsGreedy_cons]
    obtain ⟨hhead, htail⟩ := List.pairwise_cons.mp h
    have hfilter : (rest.filter fun k =>
        ¬ iou (boxes.getD i ⟨0, 0, 0, 0⟩) (boxes.getD k ⟨0, 0, 0, 0⟩) ≥ t) = rest :=
      List.filter_eq_self.mpr fun k hk => decide_eq_true (hhead k hk)
    rw [hfilter, ih htail]

theorem getD_map_index {β : Type} (f : Nat → β) (l : List Nat) (p : Nat) (hp : p < l.length)
    (d : β) : (l.map f).getD p d = f l[p] := by
  rw [List.getD_eq_getElem?_getD, List.getElem?_map, List.getElem?_eq_getElem hp]
  rfl

/-- The indices sorted by descending score, above the score floor. -/
theorem sorted_candidates (scores : List ℚ) (l : List Nat) :
    (List.insertionSort (fun i k => scores.getD i 0 ≥ scores.getD k 0) l).Pairwise
      fun i k => scores.getD i 0 ≥ scores.getD k 0 := by
  haveI : IsTotal Nat (fun i k => scores.getD i 0 ≥ scores.getD k 0) :=
    ⟨fun a b => le_total (scores.getD b 0) (scores.getD a 0)⟩
  haveI : IsTrans Nat (fun i k => scores.getD i 0 ≥ scores.getD k 0) :=
    ⟨fun a b c hab hbc => le_trans hbc hab⟩
  exact List.sorted_insertionSort (fun i k => scores.getD i 0 ≥ scores.getD k 0) l

/-- The output of the suppression: pairwise below the overlap threshold, in
descending score order, every score above the floor. -/
theorem NMSBoxes_spec (boxes : List Rect) (scores : List ℚ) (st nt : ℚ) :
    ((NMSBoxes boxes scores st nt).Pairwise fun i k =>
        ¬ iou (boxes.getD i ⟨0, 0, 0, 0⟩) (boxes.getD k ⟨0, 0, 0, 0⟩) ≥ nt)
    ∧ ((NMSBoxes boxes scores st nt).Pairwise fun i k => scores.getD i 0 ≥ scores.getD k 0)
    ∧ ∀ i ∈ NMSBoxes boxes scores st nt, scores.getD i 0 > st := by
  refine ⟨nmsGreedy_pairwise boxes nt _ _ (le_refl _), ?_, ?_⟩
  · exact (sorted_candidates scores _).sublist (nmsGreedy_sublist boxes nt _ _ (le_refl _))
  · intro i hi
    have h1 := (nmsGreedy_sublist boxes nt _ _ (le_refl _)).subset hi
    have h2 := (List.perm_insertionSort _ _).subset h1
    exact of_decide_eq_true (List.mem_filter.mp h2).2

theorem pairwise_range_of_getElem {R : Nat → Nat → Prop} (l : List Nat) (h : l.Pairwise R)
    (S : Nat → Nat → Prop)
    (hS : ∀ p q (hp : p < l.length) (hq : q < l.length), R l[p] l[q] → S p q) :
    (List.range l.length).Pairwise S := by
  have hlt : (List.range l.length).Pairwise (· < ·) := List.pairwise_lt_range l.length
  refine hlt.imp_of_mem ?_
  intro p q hp hq hpq
  have hp1 : p < l.length := List.mem_range.mp hp
  have hq1 : q < l.length := List.mem_range.mp hq
  exact hS p q hp1 hq1 (List.pairwise_iff_getElem.mp h p q hp1 hq1 hpq)

/-! ## Claims about the detection decoder -/

/-- C6: on a tensor of shape `(1, 4 + C, N)`, a proposal `i < N` whose class
scores are all at most the confidence threshold leaves the candidate vectors
unchanged, and the candidates are those of the proposal loop run without
`i`; `detect` returns a list whose detections all have confidence strictly
above the threshold; and if no proposal has a class score above the
threshold, `detect` returns the empty list. -/
theorem detect_confidence_filter (det : Detector) (raw_output : List ℚ) (N C : Nat)
    (frame_cols frame_rows input_width input_height : Int)
    (hshape : raw_output.length = (4 + C) * N) (hthr : 0 ≤ det.confidenceThreshold) :
    (∀ i < N,
      (∀ j < C, ∀ s, raw_output[(4 + j) * N + i]? = some s → s ≤ det.confidenceThreshold) →
      (∀ acc, decodeProposal det raw_output N C
          ((frame_cols : ℚ) / (input_width : ℚ)) ((frame_rows : ℚ) / (input_height : ℚ)) i acc
          = some acc)
      ∧ decode det raw_output N C frame_cols frame_rows input_width input_height
          = decodeProposals det raw_output N C
              ((frame_cols : ℚ) / (input_width : ℚ)) ((frame_rows : ℚ) / (input_height : ℚ))
              ((List.range N).filter (· ≠ i)) Candidates.empty)
    ∧ (∃ ds, detect det raw_output N C frame_cols frame_rows input_width input_height = some ds
        ∧ ∀ d ∈ ds, d.confidence > det.confidenceThreshold)
    ∧ ((∀ i < N, ∀ j < C, ∀ s, raw_output[(4 + j) * N + i]? = some s →
          s ≤ det.confidenceThreshold) →
        detect det raw_output N C frame_cols frame_rows input_width input_height = some []) := by
  have hlow : ∀ i < N,
      (∀ j < C, ∀ s, raw_output[(4 + j) * N + i]? = some s → s ≤ det.confidenceThreshold) →
      ∀ j < C, raw_output.getD (4 * N + i + j * N) 0 ≤ det.confidenceThreshold :=
    fun i hi h j hj => h j hj _ (classScore_getD raw_output N C i j hshape hi hj)
  refine ⟨?_, ?_, ?_⟩
  · intro i hi h
    have hskip : ∀ acc, decodeProposal det raw_output N C
        ((frame_cols : ℚ) / (input_width : ℚ)) ((frame_rows : ℚ) / (input_height : ℚ)) i acc
        = some acc :=
      fun acc => decodeProposal_skip det raw_output N C _ _ i acc hshape hi hthr (hlow i hi h)
    exact ⟨hskip, decodeProposals_without det raw_output N C _ _ i hskip (List.range N)
      Candidates.empty⟩
  · obtain ⟨cands, ds, _, hds, hconf, hbuilt⟩ := detect_spec det raw_output N C frame_cols
      frame_rows input_width input_height hshape
    refine ⟨ds, hds, fun d hd => ?_⟩
    obtain ⟨idx, hidx⟩ := hbuilt d hd
    obtain ⟨_, _, hc, _⟩ := buildDetection_fields det cands idx d hidx
    exact hconf _ (List.getElem?_mem hc)
  · intro h
    have hdec : decode det raw_output N C frame_cols frame_rows input_width input_height
        = some Candidates.empty :=
      decodeProposals_skip_all det raw_output N C _ _ hshape hthr (List.range N)
        (fun i hi => List.mem_range.mp hi)
        (fun i hi => hlow i (List.mem_range.mp hi) (h i (List.mem_range.mp hi)))
        Candidates.empty
    unfold detect
    rw [hdec]
    simp [NMSBoxes, nmsGreedy_nil, Candidates.empty, buildDetections]

/-- Witness of C6: two proposals and two classes; proposal 0 has the scores
`(1/10, 9/10)` and proposal 1 the scores `(2/10, 3/10)`, so proposal 1 is
skipped and every returned confidence exceeds `1/2`. -/
theorem detect_confidence_filter_witness :
    ([320, 100, 320, 300, 100, 30, 50, 30, 1 / 10, 2 / 10, 9 / 10, 3 / 10] : List ℚ).length
        = (4 + 2) * 2
    ∧ (∀ acc, decodeProposal (Detector.init ["Hand-Signal", "Player"])
          [320, 100, 320, 300, 100, 30, 50, 30, 1 / 10, 2 / 10, 9 / 10, 3 / 10] 2 2
          (((1280 : Int) : ℚ) / ((640 : Int) : ℚ)) (((960 : Int) : ℚ) / ((640 : Int) : ℚ)) 1 acc
          = some acc)
    ∧ ∃ ds, detect (Detector.init ["Hand-Signal", "Player"])
          [320, 100, 320, 300, 100, 30, 50, 30, 1 / 10, 2 / 10, 9 / 10, 3 / 10] 2 2
          1280 960 640 640 = some ds
        ∧ ∀ d ∈ ds, d.confidence > (Detector.init ["Hand-Signal", "Player"]).confidenceThreshold :=
  ⟨rfl,
   ((detect_confidence_filter (Detector.init ["Hand-Signal", "Player"])
      [320, 100, 320, 300, 100, 30, 50, 30, 1 / 10, 2 / 10, 9 / 10, 3 / 10] 2 2
      1280 960 640 640 rfl (by norm_num [Detector.init])).1 1 (by decide)
      (by
        intro j hj s hs
        interval_cases j
        · simp at hs; subst hs; norm_num [Detector.init]
        · simp at hs; subst hs; norm_num [Detector.init])).1,
   (detect_confidence_filter (Detector.init ["Hand-Signal", "Player"])
      [320, 100, 320, 300, 100, 30, 50, 30, 1 / 10, 2 / 10, 9 / 10, 3 / 10] 2 2
      1280 960 640 640 rfl (by norm_num [Detector.init])).2.1⟩

/-- C7: for a proposal `i` retained by the confidence filter (some class
score above the threshold), the loop body pushes a confidence `conf` and a
class id `c` such that `conf` is the class score read at offset
`(4 + c) * N + i`, no class score of the proposal exceeds `conf`, and every
class before `c` has a strictly smaller score. -/
theorem decodeProposal_records_first_max (det : Detector) (raw_output : List ℚ) (N C : Nat)
    (x_factor y_factor : ℚ) (i : Nat) (acc : Candidates)
    (hshape : raw_output.length = (4 + C) * N) (hi : i < N)
    (hthr : 0 ≤ det.confidenceThreshold)
    (hret : ∃ j < C, ∃ s, raw_output[(4 + j) * N + i]? = some s ∧ s > det.confidenceThreshold) :
    ∃ c conf box,
      decodeProposal det raw_output N C x_factor y_factor i acc
        = some { class_ids := acc.class_ids ++ [c]
                 confidences := acc.confidences ++ [conf]
                 boxes := acc.boxes ++ [box] }
      ∧ c < C
      ∧ raw_output[(4 + c) * N + i]? = some conf
      ∧ (∀ j < C, ∀ s, raw_output[(4 + j) * N + i]? = some s → s ≤ conf)
      ∧ (∀ j < c, ∀ s, raw_output[(4 + j) * N + i]? = some s → s < conf) := by
  obtain ⟨best, hbest, hdec⟩ := decodeProposal_retained det raw_output N C x_factor y_factor i
    acc hshape hi hret
  rcases scanClasses_range raw_output N C i hshape hi with
    ⟨_, hall⟩ | ⟨c, hc, hres, _, hbefore, hmax⟩
  · obtain ⟨j, hj, s, hs, hgt⟩ := hret
    rw [classScore_getD raw_output N C i j hshape hi hj] at hs
    have hle := hall j hj
    rw [Option.some.inj hs] at hle
    exact absurd (lt_of_le_of_lt hthr hgt) (not_lt.mpr hle)
  · rw [hres] at hbest
    have hb : best = (raw_output.getD (4 * N + i + c * N) 0, c) := (Option.some.inj hbest).symm
    rw [hb] at hdec
    refine ⟨c, raw_output.getD (4 * N + i + c * N) 0, _, hdec, hc,
      classScore_getD raw_output N C i c hshape hi hc, ?_, ?_⟩
    · intro j hj s hs
      rw [classScore_getD raw_output N C i j hshape hi hj] at hs
      rw [← Option.some.inj hs]
      exact hmax j hj
    · intro j hj s hs
      rw [classScore_getD raw_output N C i j hshape hi (lt_trans hj hc)] at hs
      rw [← Option.some.inj hs]
      exact hbefore j hj

/-- Witness of C7: three classes with the scores `(3/10, 9/10, 9/10)` for
proposal 0; the pushed confidence is `9/10` and the pushed class id is 1, the
first class attaining it. -/
theorem decodeProposal_records_first_max_witness :
    decodeProposal (Detector.init ["Hand-Signal", "Player", "Ball"])
        [320, 320, 100, 50, 3 / 10, 9 / 10, 9 / 10] 1 3 2 (3 / 2) 0 Candidates.empty
      = some { class_ids := [1], confidences := [9 / 10], boxes := [⟨540, 442, 200, 75⟩] }
    ∧ ∃ c conf box,
        decodeProposal (Detector.init ["Hand-Signal", "Player", "Ball"])
            [320, 320, 100, 50, 3 / 10, 9 / 10, 9 / 10] 1 3 2 (3 / 2) 0 Candidates.empty
          = some { class_ids := Candidates.empty.class_ids ++ [c]
                   confidences := Candidates.empty.confidences ++ [conf]
                   boxes := Candidates.empty.boxes ++ [box] }
        ∧ c < 3
        ∧ ([320, 320, 100, 50, 3 / 10, 9 / 10, 9 / 10] : List ℚ)[(4 + c) * 1 + 0]? = some conf
        ∧ (∀ j < 3, ∀ s,
            ([320, 320, 100, 50, 3 / 10, 9 / 10, 9 / 10] : List ℚ)[(4 + j) * 1 + 0]? = some s →
            s ≤ conf)
        ∧ (∀ j < c, ∀ s,
            ([320, 320, 100, 50, 3 / 10, 9 / 10, 9 / 10] : List ℚ)[(4 + j) * 1 + 0]? = some s →
            s < conf) :=
  ⟨by norm_num [decodeProposal, scanClasses, List.range, List.range.loop, Detector.init,
      scaledBox, truncToInt, Candidates.empty],
   decodeProposal_records_first_max (Detector.init ["Hand-Signal", "Player", "Ball"])
     [320, 320, 100, 50, 3 / 10, 9 / 10, 9 / 10] 1 3 2 (3 / 2) 0 Candidates.empty rfl
     (by decide) (by norm_num [Detector.init])
     ⟨1, by decide, 9 / 10, by simp, by norm_num [Detector.init]⟩⟩

/-- C8: for a retained proposal with model-space box `(cx, cy, w, h)` (read
at the offsets `0 * N + i`, `1 * N + i`, `2 * N + i`, `3 * N + i`) and positive
input and frame dimensions, the pushed box is
`(trunc ((cx - w/2) * x_factor), trunc ((cy - h/2) * y_factor),
trunc (w * x_factor), trunc (h * y_factor))` with
`x_factor = frame_cols / input_width`, `y_factor = frame_rows / input_height`
and `trunc` the truncation toward zero (floor of a non-negative value,
ceiling of a non-positive one); with input 640 x 640 and frame 1280 x 960 the
box `(320, 320, 100, 50)` becomes `(540, 442, 200, 75)`. -/
theorem decodeProposal_box_scaling (det : Detector) (raw_output : List ℚ) (N C : Nat)
    (frame_cols frame_rows input_width input_height : Int) (i : Nat) (acc : Candidates)
    (hshape : raw_output.length = (4 + C) * N) (hi : i < N)
    (_hdims : 0 < input_width ∧ 0 < input_height ∧ 0 < frame_cols ∧ 0 < frame_rows)
    (hret : ∃ j < C, ∃ s, raw_output[(4 + j) * N + i]? = some s ∧ s > det.confidenceThreshold) :
    (∃ cx cy w h res,
      raw_output[0 * N + i]? = some cx ∧ raw_output[1 * N + i]? = some cy
      ∧ raw_output[2 * N + i]? = some w ∧ raw_output[3 * N + i]? = some h
      ∧ decodeProposal det raw_output N C
          ((frame_cols : ℚ) / (input_width : ℚ)) ((frame_rows : ℚ) / (input_height : ℚ)) i acc
          = some res
      ∧ res.boxes = acc.boxes ++
          [{ x := truncToInt ((cx - w / 2) * ((frame_cols : ℚ) / (input_width : ℚ)))
             y := truncToInt ((cy - h / 2) * ((frame_rows : ℚ) / (input_height : ℚ)))
             width := truncToInt (w * ((frame_cols : ℚ) / (input_width : ℚ)))
             height := truncToInt (h * ((frame_rows : ℚ) / (input_height : ℚ))) }])
    ∧ (∀ v : ℚ, (0 ≤ v → truncToInt v = ⌊v⌋) ∧ (v ≤ 0 → truncToInt v = ⌈v⌉))
    ∧ scaledBox 320 320 100 50 (((1280 : Int) : ℚ) / ((640 : Int) : ℚ))
        (((960 : Int) : ℚ) / ((640 : Int) : ℚ)) = ⟨540, 442, 200, 75⟩ := by
  refine ⟨?_, ?_, ?_⟩
  · obtain ⟨best, _, hdec⟩ := decodeProposal_retained det raw_output N C
      ((frame_cols : ℚ) / (input_width : ℚ)) ((frame_rows : ℚ) / (input_height : ℚ)) i acc
      hshape hi hret
    exact ⟨_, _, _, _, _, boxParam_read raw_output N C i 0 hshape hi (by omega),
      boxParam_read raw_output N C i 1 hshape hi (by omega),
      boxParam_read raw_output N C i 2 hshape hi (by omega),
      boxParam_read raw_output N C i 3 hshape hi (by omega), hdec, rfl⟩
  · intro v
    constructor
    · intro hv
      simp [truncToInt, hv]
    · intro hv
      unfold truncToInt
      split_ifs with h0
      · have : v = 0 := le_antisymm hv h0
        subst this
        simp
      · rfl
  · norm_num [scaledBox, truncToInt]

/-- Witness of C8: one proposal `(320, 320, 100, 50)` with class scores
`(1/10, 9/10)`, model input 640 x 640, frame 1280 x 960. -/
theorem decodeProposal_box_scaling_witness :
    (0 < (640 : Int) ∧ 0 < (640 : Int) ∧ 0 < (1280 : Int) ∧ 0 < (960 : Int))
    ∧ decodeProposal (Detector.init ["Hand-Signal", "Player"])
        [320, 320, 100, 50, 1 / 10, 9 / 10] 1 2
        (((1280 : Int) : ℚ) / ((640 : Int) : ℚ)) (((960 : Int) : ℚ) / ((640 : Int) : ℚ))
        0 Candidates.empty
      = some { class_ids := [1], confidences := [9 / 10], boxes := [⟨540, 442, 200, 75⟩] }
    ∧ scaledBox 320 320 100 50 (((1280 : Int) : ℚ) / ((640 : Int) : ℚ))
        (((960 : Int) : ℚ) / ((640 : Int) : ℚ)) = ⟨540, 442, 200, 75⟩ :=
  ⟨by decide,
   by norm_num [decodeProposal, scanClasses, List.range, List.range.loop, Detector.init,
      scaledBox, truncToInt, Candidates.empty],
   (decodeProposal_box_scaling (Detector.init ["Hand-Signal", "Player"])
      [320, 320, 100, 50, 1 / 10, 9 / 10] 1 2 1280 960 640 640 0 Candidates.empty rfl
      (by decide) (by decide)
      ⟨1, by decide, 9 / 10, by simp, by norm_num [Detector.init]⟩).2.2⟩

/-- C9: a `Detection` built from a surviving index carries the class id
stored at that index, its `className` is `classNames[classId]` when the class
id is below the length of the table and `"Unknown"` otherwise; the
construction succeeds for every index inside the candidate vectors, and on a
tensor of shape `(1, 4 + C, N)` `detect` returns a list all of whose
detections are labelled this way. -/
theorem detect_className_lookup (det : Detector) (raw_output : List ℚ) (N C : Nat)
    (frame_cols frame_rows input_width input_height : Int)
    (hshape : raw_output.length = (4 + C) * N) :
    (∀ cands idx d, buildDetection det cands idx = some d →
      ∃ c : Nat, cands.class_ids[idx]? = some c ∧ d.classId = (c : Int)
        ∧ (∀ h : c < det.classNames.length, d.className = det.classNames[c])
        ∧ (det.classNames.length ≤ c → d.className = "Unknown"))
    ∧ (∀ cands idx, cands.class_ids.length = cands.confidences.length →
        cands.boxes.length = cands.confidences.length → idx < cands.boxes.length →
        ∃ d, buildDetection det cands idx = some d)
    ∧ ∃ ds, detect det raw_output N C frame_cols frame_rows input_width input_height = some ds
        ∧ ∀ d ∈ ds, ∃ c : Nat, d.classId = (c : Int)
          ∧ (∀ h : c < det.classNames.length, d.className = det.classNames[c])
          ∧ (det.classNames.length ≤ c → d.className = "Unknown") := by
  have hfield : ∀ cands idx d, buildDetection det cands idx = some d →
      ∃ c : Nat, cands.class_ids[idx]? = some c ∧ d.classId = (c : Int)
        ∧ (∀ h : c < det.classNames.length, d.className = det.classNames[c])
        ∧ (det.classNames.length ≤ c → d.className = "Unknown") := by
    intro cands idx d hd
    obtain ⟨c, hc, _, _, hid, hname⟩ := buildDetection_fields det cands idx d hd
    refine ⟨c, hc, hid, fun h => ?_, fun h => ?_⟩
    · rw [hname, dif_pos h]
    · rw [hname, dif_neg (not_lt.mpr h)]
  refine ⟨hfield, ?_, ?_⟩
  · intro cands idx h1 h2 hidx
    obtain ⟨_, _, _, _, _, _, hd⟩ := buildDetection_spec det cands idx h1 h2 hidx
    exact ⟨_, hd⟩
  · obtain ⟨cands, ds, _, hds, _, hbuilt⟩ := detect_spec det raw_output N C frame_cols
      frame_rows input_width input_height hshape
    refine ⟨ds, hds, fun d hd => ?_⟩
    obtain ⟨idx, hidx⟩ := hbuilt d hd
    obtain ⟨c, _, h⟩ := hfield cands idx d hidx
    exact ⟨c, h⟩

/-- Witness of C9: a class table with the single name "Hand-Signal" and a
tensor whose only proposal has its best score in class 1; the detection
built from it is labelled "Unknown". -/
theorem detect_className_lookup_witness :
    ([320, 320, 100, 50, 1 / 10, 9 / 10] : List ℚ).length = (4 + 2) * 1
    ∧ detect (Detector.init ["Hand-Signal"]) [320, 320, 100, 50, 1 / 10, 9 / 10] 1 2
        1280 960 640 640 = some [⟨1, 9 / 10, ⟨540, 442, 200, 75⟩, "Unknown"⟩]
    ∧ ∃ ds, detect (Detector.init ["Hand-Signal"]) [320, 320, 100, 50, 1 / 10, 9 / 10] 1 2
          1280 960 640 640 = some ds
        ∧ ∀ d ∈ ds, ∃ c : Nat, d.classId = (c : Int)
          ∧ (∀ h : c < (Detector.init ["Hand-Signal"]).classNames.length,
              d.className = (Detector.init ["Hand-Signal"]).classNames[c])
          ∧ ((Detector.init ["Hand-Signal"]).classNames.length ≤ c → d.className = "Unknown") :=
  ⟨rfl,
   by norm_num [detect, decode, decodeProposals, decodeProposal, scanClasses, List.range,
      List.range.loop, Detector.init, scaledBox, truncToInt, Candidates.empty, NMSBoxes,
      nmsGreedy, buildDetections, buildDetection],
   (detect_className_lookup (Detector.init ["Hand-Signal"])
      [320, 320, 100, 50, 1 / 10, 9 / 10] 1 2 1280 960 640 640 rfl).2.2⟩

/-- C10: with `out` the indices returned by the suppression, no two distinct
positions of `out` hold boxes with IoU at least `nms_threshold`, and the
suppression applied to the returned boxes and scores (in output order) keeps
every one of them, in the same order. -/
theorem NMSBoxes_no_overlap_and_idempotent (boxes : List Rect) (scores : List ℚ)
    (score_threshold nms_threshold : ℚ) :
    (∀ p q (hp : p < (NMSBoxes boxes scores score_threshold nms_threshold).length)
        (hq : q < (NMSBoxes boxes scores score_threshold nms_threshold).length), p ≠ q →
        ¬ iou (boxes.getD (NMSBoxes boxes scores score_threshold nms_threshold)[p] ⟨0, 0, 0, 0⟩)
            (boxes.getD (NMSBoxes boxes scores score_threshold nms_threshold)[q] ⟨0, 0, 0, 0⟩)
          ≥ nms_threshold)
    ∧ NMSBoxes
        ((NMSBoxes boxes scores score_threshold nms_threshold).map
          fun i => boxes.getD i ⟨0, 0, 0, 0⟩)
        ((NMSBoxes boxes scores score_threshold nms_threshold).map fun i => scores.getD i 0)
        score_threshold nms_threshold
      = List.range (NMSBoxes boxes scores score_threshold nms_threshold).length := by
  obtain ⟨hover, hsorted, hfloor⟩ := NMSBoxes_spec boxes scores score_threshold nms_threshold
  generalize NMSBoxes boxes scores score_threshold nms_threshold = out at hover hsorted hfloor ⊢
  constructor
  · intro p q hp hq hpq
    rcases Nat.lt_or_gt_of_ne hpq with hlt | hgt
    · exact List.pairwise_iff_getElem.mp hover p q hp hq hlt
    · rw [iou_comm]
      exact List.pairwise_iff_getElem.mp hover q p hq hp hgt
  · unfold NMSBoxes
    rw [List.length_map]
    have hfilter : ((List.range out.length).filter fun i =>
        (out.map fun i => scores.getD i 0).getD i 0 > score_threshold)
        = List.range out.length := by
      refine List.filter_eq_self.mpr fun p hp => decide_eq_true ?_
      have hp1 : p < out.length := List.mem_range.mp hp
      rw [getD_map_index _ out p hp1]
      exact hfloor _ (List.getElem_mem hp1)
    rw [hfilter]
    have hsort : List.insertionSort
        (fun i k => (out.map fun i => scores.getD i 0).getD i 0
          ≥ (out.map fun i => scores.getD i 0).getD k 0)
        (List.range out.length) = List.range out.length := by
      refine List.Sorted.insertionSort_eq ?_
      refine pairwise_range_of_getElem out hsorted _ ?_
      intro p q hp hq h
      rw [getD_map_index _ out p hp, getD_map_index _ out q hq]
      exact h
    rw [hsort]
    refine nmsGreedy_of_pairwise _ _ _ ?_
    refine pairwise_range_of_getElem out hover _ ?_
    intro p q hp hq h
    rw [getD_map_index _ out p hp, getD_map_index _ out q hq]
    exact h

/-- Witness of C10: three candidates, the first overlapping the second (IoU
81/119) and scored lower; the suppression returns the indices 1 and 2, and
run again on these two boxes it keeps both. -/
theorem NMSBoxes_no_overlap_and_idempotent_witness :
    NMSBoxes [⟨0, 0, 10, 10⟩, ⟨1, 1, 10, 10⟩, ⟨50, 50, 10, 10⟩] [6 / 10, 9 / 10, 7 / 10]
        (1 / 2) (1 / 5) = [1, 2]
    ∧ NMSBoxes
        ((NMSBoxes [⟨0, 0, 10, 10⟩, ⟨1, 1, 10, 10⟩, ⟨50, 50, 10, 10⟩] [6 / 10, 9 / 10, 7 / 10]
            (1 / 2) (1 / 5)).map
          fun i => ([⟨0, 0, 10, 10⟩, ⟨1, 1, 10, 10⟩, ⟨50, 50, 10, 10⟩] : List Rect).getD i
            ⟨0, 0, 0, 0⟩)
        ((NMSBoxes [⟨0, 0, 10, 10⟩, ⟨1, 1, 10, 10⟩, ⟨50, 50, 10, 10⟩] [6 / 10, 9 / 10, 7 / 10]
            (1 / 2) (1 / 5)).map
          fun i => ([6 / 10, 9 / 10, 7 / 10] : List ℚ).getD i 0)
        (1 / 2) (1 / 5)
      = List.range (NMSBoxes [⟨0, 0, 10, 10⟩, ⟨1, 1, 10, 10⟩, ⟨50, 50, 10, 10⟩]
          [6 / 10, 9 / 10, 7 / 10] (1 / 2) (1 / 5)).length :=
  ⟨by norm_num [NMSBoxes, nmsGreedy, iou, Rect.area, List.range, List.range.loop,
      List.insertionSort, List.orderedInsert, List.filter],
   (NMSBoxes_no_overlap_and_idempotent [⟨0, 0, 10, 10⟩, ⟨1, 1, 10, 10⟩, ⟨50, 50, 10, 10⟩]
      [6 / 10, 9 / 10, 7 / 10] (1 / 2) (1 / 5)).2⟩

/-! ## Helper lemmas: the state after one call -/

theorem update_found (mc : MotorController) (detections : List Detection)
    (frameSize : Size) (current_time : ℚ) (box : Rect)
    (h : (bestCandidate detections).2 = some box) :
    update mc detections frameSize current_time
      = ({ trackedPlayerBox := some box
           prevTrackedPlayerBox := mc.trackedPlayerBox
           last_detection_time := current_time
           frames_since_last_seen := 0
           pan_pid_error_last :=
             panError (findBestPlayer mc detections) box frameSize (updateDt mc current_time)
           pan_pid_integral := mc.pan_pid_integral
             + panError (findBestPlayer mc detections) box frameSize (updateDt mc current_time) },
         Output.motorCommand
            (clamp (panCommand (findBestPlayer mc detections) box frameSize
              (updateDt mc current_time)) MIN_COMMAND MAX_COMMAND)
           :: handSignalScan detections) := by
  unfold update
  rw [trackStep_found mc detections frameSize current_time box h]
  simp only [calculateMotorCommands, findBestPlayer, h, List.singleton_append]
  rfl

theorem update_missed (mc : MotorController) (detections : List Detection)
    (frameSize : Size) (current_time : ℚ)
    (h : (bestCandidate detections).2 = none) :
    update mc detections frameSize current_time
      = ({ mc with
            trackedPlayerBox := none
            prevTrackedPlayerBox := none
            frames_since_last_seen := mc.frames_since_last_seen + 1 },
         (if mc.frames_since_last_seen + 1 > MAX_FRAMES_WITHOUT_DETECTION
              ∧ mc.frames_since_last_seen + 1 < MAX_FRAMES_WITHOUT_DETECTION + 5 then
            [Output.motorCommand 0]
          else []) ++ handSignalScan detections) := by
  unfold update
  rw [trackStep_missed mc detections frameSize current_time h]
  simp only [findBestPlayer, h]

theorem predictedTargetCenterX_findBestPlayer (mc : MotorController)
    (detections : List Detection) (box : Rect) (dt : ℚ) :
    predictedTargetCenterX (findBestPlayer mc detections) box dt
      = match mc.trackedPlayerBox with
        | some prev =>
          if dt > 0 then centerX box + ((centerX box - centerX prev) / dt) * LEAD_TIME_S
          else centerX box
        | none => centerX box := rfl

theorem count_pass_handSignalScan (detections : List Detection) :
    (handSignalScan detections).count Output.passCommand
      = if ∃ d ∈ detections, d.className = "Hand-Signal" then 1 else 0 := by
  induction detections with
  | nil => simp [handSignalScan]
  | cons d rest ih =>
    unfold handSignalScan
    by_cases hd : d.className = "Hand-Signal"
    · simp [hd]
    · rw [if_neg hd, ih]
      simp only [List.mem_cons, exists_eq_or_imp, hd, false_or]

theorem count_pass_trackStep (mc : MotorController) (detections : List Detection)
    (frameSize : Size) (current_time : ℚ) :
    (trackStep mc detections frameSize current_time).2.count Output.passCommand = 0 := by
  cases hb : (bestCandidate detections).2 with
  | some box =>
    rw [trackStep_found mc detections frameSize current_time box hb]
    simp
  | none =>
    rw [trackStep_missed mc detections frameSize current_time hb]
    dsimp only
    split_ifs <;> simp

/-! ## Claims about the controller: PID step, gesture scan, box shift -/

/-- C11: on a call of `update` that selects a target, with `dt > 0`, with
`error = predictedCenterX - frameWidth / 2`, prior integral `I` and prior
last error `E`, the single emitted pan value is
`clamp (0.5 * error + 0.01 * (I + error) + 0.1 * (error - E) / dt) (-255) 255`,
and afterwards the integral is `I + error`, the last error is `error`, the
frame counter is 0 and the detection timestamp is the current time. -/
theorem update_found_pid_step (mc : MotorController) (detections : List Detection)
    (frameSize : Size) (current_time : ℚ) (box : Rect)
    (hsel : (findBestPlayer mc detections).trackedPlayerBox = some box)
    (hdt : 0 < updateDt mc current_time) :
    commandsOf (update mc detections frameSize current_time).2
        = [clamp
            (1 / 2 * (predictedTargetCenterX (findBestPlayer mc detections) box
                  (updateDt mc current_time) - (frameSize.width : ℚ) / 2)
              + 1 / 100 * (mc.pan_pid_integral
                  + (predictedTargetCenterX (findBestPlayer mc detections) box
                      (updateDt mc current_time) - (frameSize.width : ℚ) / 2))
              + 1 / 10 * ((predictedTargetCenterX (findBestPlayer mc detections) box
                      (updateDt mc current_time) - (frameSize.width : ℚ) / 2)
                    - mc.pan_pid_error_last) / updateDt mc current_time)
            (-255) 255]
    ∧ (update mc detections frameSize current_time).1.pan_pid_integral
        = mc.pan_pid_integral
          + (predictedTargetCenterX (findBestPlayer mc detections) box
              (updateDt mc current_time) - (frameSize.width : ℚ) / 2)
    ∧ (update mc detections frameSize current_time).1.pan_pid_error_last
        = predictedTargetCenterX (findBestPlayer mc detections) box
            (updateDt mc current_time) - (frameSize.width : ℚ) / 2
    ∧ (update mc detections frameSize current_time).1.frames_since_last_seen = 0
    ∧ (update mc detections frameSize current_time).1.last_detection_time = current_time := by
  rw [update_found mc detections frameSize current_time box hsel]
  refine ⟨?_, rfl, rfl, rfl, rfl⟩
  simp only [commandsOf, commandsOf_handSignalScan]
  have hd : updateDt mc current_time > 0 := hdt
  have hraw : panCommand (findBestPlayer mc detections) box frameSize (updateDt mc current_time)
      = 1 / 2 * (predictedTargetCenterX (findBestPlayer mc detections) box
                  (updateDt mc current_time) - (frameSize.width : ℚ) / 2)
              + 1 / 100 * (mc.pan_pid_integral
                  + (predictedTargetCenterX (findBestPlayer mc detections) box
                      (updateDt mc current_time) - (frameSize.width : ℚ) / 2))
              + 1 / 10 * ((predictedTargetCenterX (findBestPlayer mc detections) box
                      (updateDt mc current_time) - (frameSize.width : ℚ) / 2)
                    - mc.pan_pid_error_last) / updateDt mc current_time := by
    simp only [panCommand, panDerivative, panError, if_pos hd, PAN_KP, PAN_KI, PAN_KD,
      findBestPlayer]
    ring
  rw [hraw]
  rfl

/-- Witness of C11: previous box centred at 100, new "Player" box centred at
140, last detection at time 1, current time 6/5 and a frame of width 640:
the error is `240 - 320 = -80` and the emitted pan value is `-404/5`. -/
theorem update_found_pid_step_witness :
    0 < updateDt { MotorController.init with
          trackedPlayerBox := some ⟨90, 0, 20, 10⟩, last_detection_time := 1 } (6 / 5)
    ∧ update { MotorController.init with
          trackedPlayerBox := some ⟨90, 0, 20, 10⟩, last_detection_time := 1 }
        [⟨1, 9 / 10, ⟨130, 0, 20, 10⟩, "Player"⟩] ⟨640, 480⟩ (6 / 5)
      = ({ trackedPlayerBox := some ⟨130, 0, 20, 10⟩
           prevTrackedPlayerBox := some ⟨90, 0, 20, 10⟩
           last_detection_time := 6 / 5
           frames_since_last_seen := 0
           pan_pid_error_last := -80
           pan_pid_integral := -80 }, [Output.motorCommand (-404 / 5)])
    ∧ (update { MotorController.init with
          trackedPlayerBox := some ⟨90, 0, 20, 10⟩, last_detection_time := 1 }
        [⟨1, 9 / 10, ⟨130, 0, 20, 10⟩, "Player"⟩] ⟨640, 480⟩ (6 / 5)).1.last_detection_time
      = 6 / 5 :=
  ⟨by norm_num [updateDt, MotorController.init],
   by
    rw [update_found _ _ _ _ ⟨130, 0, 20, 10⟩ (by decide)]
    norm_num [panCommand, panDerivative, panError, predictedTargetCenterX, findBestPlayer,
      updateDt, centerX, clamp, handSignalScan, MotorController.init, PAN_KP, PAN_KI, PAN_KD,
      LEAD_TIME_S, MIN_COMMAND, MAX_COMMAND]
    decide,
   (update_found_pid_step { MotorController.init with
        trackedPlayerBox := some ⟨90, 0, 20, 10⟩, last_detection_time := 1 }
      [⟨1, 9 / 10, ⟨130, 0, 20, 10⟩, "Player"⟩] ⟨640, 480⟩ (6 / 5) ⟨130, 0, 20, 10⟩
      (by decide) (by norm_num [updateDt, MotorController.init])).2.2.2.2⟩

/-- C12: in `calculateMotorCommands`, when the previous box is present and
`dt > 0`, the predicted centre is
`targetCenterX + ((targetCenterX - prevTargetCenterX) / dt) * 0.5`, each centre
being `box.x + box.width / 2` as a fraction (no integer truncation); with the
previous centre at 100, the current centre at 140 and `dt = 0.2` the velocity
is 200 and the predicted centre 240; when the previous box is absent or `dt`
is not positive the predicted centre is the target centre.  Inside `update`
the previous box is the box tracked before the call and the recorded error
is the predicted centre minus half the frame width. -/
theorem predicted_center_extrapolation (mc : MotorController) (targetBox : Rect) (dt : ℚ) :
    (∀ prev, mc.prevTrackedPlayerBox = some prev → 0 < dt →
      predictedTargetCenterX mc targetBox dt
        = centerX targetBox + ((centerX targetBox - centerX prev) / dt) * (1 / 2))
    ∧ (mc.prevTrackedPlayerBox = none ∨ dt ≤ 0 →
        predictedTargetCenterX mc targetBox dt = centerX targetBox)
    ∧ (∀ box : Rect, centerX box = (box.x : ℚ) + (box.width : ℚ) / 2)
    ∧ (∀ prev, mc.prevTrackedPlayerBox = some prev → centerX prev = 100 →
        centerX targetBox = 140 →
        (centerX targetBox - centerX prev) / (1 / 5) = 200
        ∧ predictedTargetCenterX mc targetBox (1 / 5) = 240)
    ∧ (∀ (detections : List Detection) (frameSize : Size) (current_time : ℚ),
        (findBestPlayer mc detections).trackedPlayerBox = some targetBox →
        (findBestPlayer mc detections).prevTrackedPlayerBox = mc.trackedPlayerBox
        ∧ (update mc detections frameSize current_time).1.pan_pid_error_last
            = predictedTargetCenterX (findBestPlayer mc detections) targetBox
                (updateDt mc current_time) - (frameSize.width : ℚ) / 2) := by
  refine ⟨?_, ?_, fun _ => rfl, ?_, ?_⟩
  · intro prev hprev hdt
    have hd : dt > 0 := hdt
    simp only [predictedTargetCenterX, hprev, if_pos hd, LEAD_TIME_S]
  · intro h
    unfold predictedTargetCenterX
    rcases h with h | h
    · rw [h]
    · have hd : ¬ dt > 0 := not_lt.mpr h
      cases mc.prevTrackedPlayerBox with
      | none => rfl
      | some prev => simp only [if_neg hd]
  · intro prev hprev h1 h2
    simp only [predictedTargetCenterX, hprev, h1, h2, LEAD_TIME_S]
    norm_num
  · intro detections frameSize current_time hsel
    rw [update_found mc detections frameSize current_time targetBox hsel]
    exact ⟨rfl, rfl⟩

/-- Witness of C12: previous box `(90, 0, 21, 10)` with centre `201/2`, target
box `(130, 0, 21, 10)` with centre `281/2`, `dt = 1/5`: the predicted centre is
`281/2 + (40 / (1/5)) * (1/2) = 481/2`. -/
theorem predicted_center_extrapolation_witness :
    centerX ⟨90, 0, 21, 10⟩ = 201 / 2
    ∧ predictedTargetCenterX
        { MotorController.init with prevTrackedPlayerBox := some ⟨90, 0, 21, 10⟩ }
        ⟨130, 0, 21, 10⟩ (1 / 5)
      = centerX ⟨130, 0, 21, 10⟩
        + ((centerX ⟨130, 0, 21, 10⟩ - centerX ⟨90, 0, 21, 10⟩) / (1 / 5)) * (1 / 2)
    ∧ centerX ⟨130, 0, 21, 10⟩
        + ((centerX ⟨130, 0, 21, 10⟩ - centerX ⟨90, 0, 21, 10⟩) / (1 / 5)) * (1 / 2)
      = 481 / 2 :=
  ⟨by norm_num [centerX],
   (predicted_center_extrapolation
      { MotorController.init with prevTrackedPlayerBox := some ⟨90, 0, 21, 10⟩ }
      ⟨130, 0, 21, 10⟩ (1 / 5)).1 ⟨90, 0, 21, 10⟩ rfl (by norm_num),
   by norm_num [centerX]⟩

theorem run_missed_keeps_pid (calls : List (List Detection × Size × ℚ))
    (hmiss : ∀ c ∈ calls, (bestCandidate c.1).2 = none) :
    ∀ mc : MotorController,
      (run mc calls).1.last_detection_time = mc.last_detection_time
      ∧ (run mc calls).1.pan_pid_integral = mc.pan_pid_integral := by
  induction calls with
  | nil => intro mc; exact ⟨rfl, rfl⟩
  | cons c rest ih =>
    intro mc
    have hrest := ih (fun k hk => hmiss k (List.mem_cons_of_mem _ hk))
      (update mc c.1 c.2.1 c.2.2).1
    simp only [run]
    rw [hrest.1, hrest.2, update_missed mc c.1 c.2.1 c.2.2 (hmiss c (List.mem_cons_self _ _))]
    exact ⟨rfl, rfl⟩

/-- C13: on a call of `update` that selects a target with `dt ≤ 0`, the
predicted centre is the target centre (no velocity term), the derivative term
is 0 and the single emitted pan value is
`clamp (0.5 * error + 0.01 * (I + error)) (-255) 255` with
`error = targetCenterX - frameWidth / 2`; `dt` is 0 whenever the last
detection timestamp is 0; and the first target-found call from the initial
state, directly or after any number of calls without target, emits
`clamp (0.51 * error) (-255) 255`. -/
theorem update_found_nonpositive_dt (detections : List Detection) (frameSize : Size)
    (current_time : ℚ) (box : Rect)
    (hsel : (bestCandidate detections).2 = some box) :
    (∀ mc : MotorController, updateDt mc current_time ≤ 0 →
      predictedTargetCenterX (findBestPlayer mc detections) box (updateDt mc current_time)
          = centerX box
      ∧ panDerivative (findBestPlayer mc detections) box frameSize (updateDt mc current_time)
          = 0
      ∧ commandsOf (update mc detections frameSize current_time).2
          = [clamp (1 / 2 * (centerX box - (frameSize.width : ℚ) / 2)
                + 1 / 100 * (mc.pan_pid_integral
                    + (centerX box - (frameSize.width : ℚ) / 2))) (-255) 255])
    ∧ (∀ mc : MotorController, mc.last_detection_time = 0 → updateDt mc current_time = 0)
    ∧ commandsOf (update MotorController.init detections frameSize current_time).2
        = [clamp (51 / 100 * (centerX box - (frameSize.width : ℚ) / 2)) (-255) 255]
    ∧ (∀ misses : List (List Detection × Size × ℚ),
        (∀ c ∈ misses, (bestCandidate c.1).2 = none) →
        commandsOf (update (run MotorController.init misses).1 detections frameSize
            current_time).2
          = [clamp (51 / 100 * (centerX box - (frameSize.width : ℚ) / 2)) (-255) 255]) := by
  have hpred : ∀ mc : MotorController, updateDt mc current_time ≤ 0 →
      predictedTargetCenterX (findBestPlayer mc detections) box (updateDt mc current_time)
        = centerX box := by
    intro mc hdt
    have hd : ¬ updateDt mc current_time > 0 := not_lt.mpr hdt
    rw [predictedTargetCenterX_findBestPlayer]
    cases mc.trackedPlayerBox with
    | none => rfl
    | some prev => simp only [if_neg hd]
  have hmain : ∀ mc : MotorController, updateDt mc current_time ≤ 0 →
      commandsOf (update mc detections frameSize current_time).2
          = [clamp (1 / 2 * (centerX box - (frameSize.width : ℚ) / 2)
                + 1 / 100 * (mc.pan_pid_integral
                    + (centerX box - (frameSize.width : ℚ) / 2))) (-255) 255] := by
    intro mc hdt
    have hd : ¬ updateDt mc current_time > 0 := not_lt.mpr hdt
    rw [update_found mc detections frameSize current_time box hsel]
    simp only [commandsOf, commandsOf_handSignalScan]
    have hraw : panCommand (findBestPlayer mc detections) box frameSize
        (updateDt mc current_time)
        = 1 / 2 * (centerX box - (frameSize.width : ℚ) / 2)
          + 1 / 100 * (mc.pan_pid_integral + (centerX box - (frameSize.width : ℚ) / 2)) := by
      have hI : (findBestPlayer mc detections).pan_pid_integral = mc.pan_pid_integral := rfl
      simp only [panCommand, panDerivative, panError, hpred mc hdt, if_neg hd, PAN_KP, PAN_KI,
        PAN_KD, hI]
      ring
    rw [hraw]
    rfl
  have hzero : ∀ mc : MotorController, mc.last_detection_time = 0 →
      updateDt mc current_time = 0 := by
    intro mc h0
    simp [updateDt, h0]
  have hfirst : ∀ mc : MotorController, mc.last_detection_time = 0 →
      mc.pan_pid_integral = 0 →
      commandsOf (update mc detections frameSize current_time).2
        = [clamp (51 / 100 * (centerX box - (frameSize.width : ℚ) / 2)) (-255) 255] := by
    intro mc h0 hI
    rw [hmain mc (le_of_eq (hzero mc h0)), hI]
    have : (1 : ℚ) / 2 * (centerX box - (frameSize.width : ℚ) / 2)
        + 1 / 100 * (0 + (centerX box - (frameSize.width : ℚ) / 2))
        = 51 / 100 * (centerX box - (frameSize.width : ℚ) / 2) := by
      ring
    rw [this]
  refine ⟨fun mc hdt => ⟨hpred mc hdt, ?_, hmain mc hdt⟩, hzero,
    hfirst MotorController.init rfl rfl, fun misses hmiss => ?_⟩
  · have hd : ¬ updateDt mc current_time > 0 := not_lt.mpr hdt
    simp only [panDerivative, if_neg hd]
  · obtain ⟨hl, hI⟩ := run_missed_keeps_pid misses hmiss MotorController.init
    exact hfirst _ hl hI

/-- Witness of C13: the first call from the initial state with one "Player"
box centred at 140 in a frame of width 640: the error is `-180` and the
emitted pan value is `0.51 * (-180) = -459/5`. -/
theorem update_found_nonpositive_dt_witness :
    (bestCandidate [⟨1, 9 / 10, ⟨130, 0, 20, 10⟩, "Player"⟩]).2 = some ⟨130, 0, 20, 10⟩
    ∧ commandsOf (update MotorController.init [⟨1, 9 / 10, ⟨130, 0, 20, 10⟩, "Player"⟩]
        ⟨640, 480⟩ 1).2
      = [clamp (51 / 100 * (centerX ⟨130, 0, 20, 10⟩ - ((640 : Int) : ℚ) / 2)) (-255) 255]
    ∧ clamp (51 / 100 * (centerX ⟨130, 0, 20, 10⟩ - ((640 : Int) : ℚ) / 2)) (-255) 255
      = -459 / 5 :=
  ⟨by decide,
   (update_found_nonpositive_dt [⟨1, 9 / 10, ⟨130, 0, 20, 10⟩, "Player"⟩] ⟨640, 480⟩ 1
      ⟨130, 0, 20, 10⟩ (by decide)).2.2.1,
   by norm_num [clamp, centerX]⟩

/-- C14: one call of `update` emits exactly one pass-command event when the
detection list holds at least one "Hand-Signal" detection and none otherwise,
whatever the state and whether or not a target was selected. -/
theorem update_pass_event_once (mc : MotorController) (detections : List Detection)
    (frameSize : Size) (current_time : ℚ) :
    ((∃ d ∈ detections, d.className = "Hand-Signal") →
      (update mc detections frameSize current_time).2.count Output.passCommand = 1)
    ∧ ((¬ ∃ d ∈ detections, d.className = "Hand-Signal") →
      (update mc detections frameSize current_time).2.count Output.passCommand = 0) := by
  have hcount : (update mc detections frameSize current_time).2.count Output.passCommand
      = if ∃ d ∈ detections, d.className = "Hand-Signal" then 1 else 0 := by
    unfold update
    rw [List.count_append, count_pass_trackStep, count_pass_handSignalScan, Nat.zero_add]
  constructor
  · intro h
    rw [hcount, if_pos h]
  · intro h
    rw [hcount, if_neg h]

/-- Witness of C14: three "Hand-Signal" detections and one "Player" in one
frame give one pass-command event after the pan value; two "Hand-Signal"
detections without a "Player" give one pass-command event and nothing else. -/
theorem update_pass_event_once_witness :
    (update MotorController.init
        [⟨0, 9 / 10, ⟨0, 0, 5, 5⟩, "Hand-Signal"⟩, ⟨1, 9 / 10, ⟨130, 0, 20, 10⟩, "Player"⟩,
         ⟨0, 8 / 10, ⟨9, 9, 5, 5⟩, "Hand-Signal"⟩, ⟨0, 7 / 10, ⟨20, 9, 5, 5⟩, "Hand-Signal"⟩]
        ⟨640, 480⟩ 1).2.count Output.passCommand = 1
    ∧ (update MotorController.init
        [⟨0, 9 / 10, ⟨0, 0, 5, 5⟩, "Hand-Signal"⟩, ⟨0, 8 / 10, ⟨9, 9, 5, 5⟩, "Hand-Signal"⟩]
        ⟨640, 480⟩ 1).2 = [Output.passCommand] :=
  ⟨(update_pass_event_once MotorController.init _ ⟨640, 480⟩ 1).1
      ⟨⟨0, 9 / 10, ⟨0, 0, 5, 5⟩, "Hand-Signal"⟩, List.mem_cons_self _ _, rfl⟩,
   by decide⟩

/-- C15: after a call of `update` that selects a target, the previous box is
the box that was tracked before the call (present or absent); after a call
that selects none, the previous box is absent. -/
theorem update_prev_box_shift (mc : MotorController) (detections : List Detection)
    (frameSize : Size) (current_time : ℚ) :
    (∀ box, (findBestPlayer mc detections).trackedPlayerBox = some box →
      (update mc detections frameSize current_time).1.prevTrackedPlayerBox
        = mc.trackedPlayerBox)
    ∧ ((findBestPlayer mc detections).trackedPlayerBox = none →
      (update mc detections frameSize current_time).1.prevTrackedPlayerBox = none) := by
  constructor
  · intro box hsel
    rw [update_found mc detections frameSize current_time box hsel]
  · intro hmiss
    rw [update_missed mc detections frameSize current_time hmiss]

/-- Witness of C15: a state tracking the box `(90, 0, 20, 10)`; a call with a
"Player" detection leaves that box as the previous box, a call with no
detection leaves no previous box. -/
theorem update_prev_box_shift_witness :
    (update { MotorController.init with trackedPlayerBox := some ⟨90, 0, 20, 10⟩ }
        [⟨1, 9 / 10, ⟨130, 0, 20, 10⟩, "Player"⟩] ⟨640, 480⟩ 1).1.prevTrackedPlayerBox
      = some ⟨90, 0, 20, 10⟩
    ∧ (update { MotorController.init with trackedPlayerBox := some ⟨90, 0, 20, 10⟩ }
        [] ⟨640, 480⟩ 1).1.prevTrackedPlayerBox = none :=
  ⟨(update_prev_box_shift { MotorController.init with trackedPlayerBox := some ⟨90, 0, 20, 10⟩ }
      [⟨1, 9 / 10, ⟨130, 0, 20, 10⟩, "Player"⟩] ⟨640, 480⟩ 1).1 ⟨130, 0, 20, 10⟩ (by decide),
   (update_prev_box_shift { MotorController.init with trackedPlayerBox := some ⟨90, 0, 20, 10⟩ }
      [] ⟨640, 480⟩ 1).2 (by decide)⟩

/-! ## Claims about sequences of calls -/

/-- C16: in a sequence found, missed, found, found with timestamps
`0 < t1 < t2 < t3 < t4`, the call right after the missed frame has `dt > 0`
but no previous box, so its predicted centre is the target centre; the next
call has the box selected by the call before it as previous box and
extrapolates with `dt = t4 - t3`. -/
theorem missed_frame_disables_velocity_once (mc0 s1 s2 s3 s4 : MotorController)
    (d1 d2 d3 d4 : List Detection) (f1 f2 f3 f4 : Size) (t1 t2 t3 t4 : ℚ) (b1 b3 b4 : Rect)
    (hs1 : s1 = (update mc0 d1 f1 t1).1) (hs2 : s2 = (update s1 d2 f2 t2).1)
    (hs3 : s3 = (update s2 d3 f3 t3).1) (hs4 : s4 = (update s3 d4 f4 t4).1)
    (h1 : (findBestPlayer mc0 d1).trackedPlayerBox = some b1)
    (h2 : (findBestPlayer s1 d2).trackedPlayerBox = none)
    (h3 : (findBestPlayer s2 d3).trackedPlayerBox = some b3)
    (h4 : (findBestPlayer s3 d4).trackedPlayerBox = some b4)
    (ht : 0 < t1 ∧ t1 < t2 ∧ t2 < t3 ∧ t3 < t4) :
    (updateDt s2 t3 = t3 - t1 ∧ 0 < updateDt s2 t3
      ∧ (findBestPlayer s2 d3).prevTrackedPlayerBox = none
      ∧ predictedTargetCenterX (findBestPlayer s2 d3) b3 (updateDt s2 t3) = centerX b3
      ∧ s3.pan_pid_error_last = centerX b3 - (f3.width : ℚ) / 2)
    ∧ (updateDt s3 t4 = t4 - t3 ∧ 0 < updateDt s3 t4
      ∧ (findBestPlayer s3 d4).prevTrackedPlayerBox = some b3
      ∧ predictedTargetCenterX (findBestPlayer s3 d4) b4 (updateDt s3 t4)
          = centerX b4 + ((centerX b4 - centerX b3) / (t4 - t3)) * (1 / 2)
      ∧ s4.pan_pid_error_last
          = centerX b4 + ((centerX b4 - centerX b3) / (t4 - t3)) * (1 / 2)
            - (f4.width : ℚ) / 2) := by
  obtain ⟨ht1, ht12, ht23, ht34⟩ := ht
  have e1 : s1.last_detection_time = t1 := by
    rw [hs1, update_found mc0 d1 f1 t1 b1 h1]
  have e2 : s2.last_detection_time = t1 ∧ s2.trackedPlayerBox = none := by
    rw [hs2, update_missed s1 d2 f2 t2 h2]
    exact ⟨e1, rfl⟩
  have dt3 : updateDt s2 t3 = t3 - t1 := by
    have hpos : t1 > 0 := ht1
    simp only [updateDt, e2.1, if_pos hpos]
  have p3 : predictedTargetCenterX (findBestPlayer s2 d3) b3 (updateDt s2 t3) = centerX b3 := by
    rw [predictedTargetCenterX_findBestPlayer, e2.2]
  have e3 : s3.last_detection_time = t3 ∧ s3.trackedPlayerBox = some b3
      ∧ s3.pan_pid_error_last = centerX b3 - (f3.width : ℚ) / 2 := by
    rw [hs3, update_found s2 d3 f3 t3 b3 h3]
    refine ⟨rfl, rfl, ?_⟩
    show panError (findBestPlayer s2 d3) b3 f3 (updateDt s2 t3) = _
    rw [panError, p3]
  have dt4 : updateDt s3 t4 = t4 - t3 := by
    have hpos : t3 > 0 := by linarith
    simp only [updateDt, e3.1, if_pos hpos]
  have pos4 : t4 - t3 > 0 := by linarith
  have p4 : predictedTargetCenterX (findBestPlayer s3 d4) b4 (updateDt s3 t4)
      = centerX b4 + ((centerX b4 - centerX b3) / (t4 - t3)) * (1 / 2) := by
    rw [predictedTargetCenterX_findBestPlayer, e3.2.1, dt4]
    simp only [if_pos pos4, LEAD_TIME_S]
  refine ⟨⟨dt3, by rw [dt3]; linarith, e2.2, p3, e3.2.2⟩, dt4, by rw [dt4]; exact pos4,
    e3.2.1, p4, ?_⟩
  rw [hs4, update_found s3 d4 f4 t4 b4 h4]
  show panError (findBestPlayer s3 d4) b4 f4 (updateDt s3 t4) = _
  rw [panError, p4]

/-- Witness of C16: from the initial state, a "Player" box centred at 100 at
time 1, an empty frame at time 2, a box centred at 140 at time 3 and a box
centred at 160 at time 4, in a frame of width 640: the third call records the
error `140 - 320`, the fourth `160 + (20 / 1) * (1/2) - 320`. -/
theorem missed_frame_disables_velocity_once_witness :
    (update (update (update MotorController.init
          [⟨1, 9 / 10, ⟨90, 0, 20, 10⟩, "Player"⟩] ⟨640, 480⟩ 1).1 [] ⟨640, 480⟩ 2).1
        [⟨1, 9 / 10, ⟨130, 0, 20, 10⟩, "Player"⟩] ⟨640, 480⟩ 3).1.pan_pid_error_last
      = centerX ⟨130, 0, 20, 10⟩ - ((640 : Int) : ℚ) / 2
    ∧ (update (update (update (update MotorController.init
          [⟨1, 9 / 10, ⟨90, 0, 20, 10⟩, "Player"⟩] ⟨640, 480⟩ 1).1 [] ⟨640, 480⟩ 2).1
        [⟨1, 9 / 10, ⟨130, 0, 20, 10⟩, "Player"⟩] ⟨640, 480⟩ 3).1
        [⟨1, 9 / 10, ⟨150, 0, 20, 10⟩, "Player"⟩] ⟨640, 480⟩ 4).1.pan_pid_error_last
      = centerX ⟨150, 0, 20, 10⟩
        + ((centerX ⟨150, 0, 20, 10⟩ - centerX ⟨130, 0, 20, 10⟩) / (4 - 3)) * (1 / 2)
        - ((640 : Int) : ℚ) / 2
    ∧ centerX ⟨150, 0, 20, 10⟩
        + ((centerX ⟨150, 0, 20, 10⟩ - centerX ⟨130, 0, 20, 10⟩) / (4 - 3)) * (1 / 2)
        - ((640 : Int) : ℚ) / 2 = -150 :=
  ⟨(missed_frame_disables_velocity_once MotorController.init _ _ _ _
      [⟨1, 9 / 10, ⟨90, 0, 20, 10⟩, "Player"⟩] [] [⟨1, 9 / 10, ⟨130, 0, 20, 10⟩, "Player"⟩]
      [⟨1, 9 / 10, ⟨150, 0, 20, 10⟩, "Player"⟩] ⟨640, 480⟩ ⟨640, 480⟩ ⟨640, 480⟩ ⟨640, 480⟩
      1 2 3 4 ⟨90, 0, 20, 10⟩ ⟨130, 0, 20, 10⟩ ⟨150, 0, 20, 10⟩ rfl rfl rfl rfl
      (by decide) (by decide) (by decide) (by decide) (by norm_num)).1.2.2.2.2,
   (missed_frame_disables_velocity_once MotorController.init _ _ _ _
      [⟨1, 9 / 10, ⟨90, 0, 20, 10⟩, "Player"⟩] [] [⟨1, 9 / 10, ⟨130, 0, 20, 10⟩, "Player"⟩]
      [⟨1, 9 / 10, ⟨150, 0, 20, 10⟩, "Player"⟩] ⟨640, 480⟩ ⟨640, 480⟩ ⟨640, 480⟩ ⟨640, 480⟩
      1 2 3 4 ⟨90, 0, 20, 10⟩ ⟨130, 0, 20, 10⟩ ⟨150, 0, 20, 10⟩ rfl rfl rfl rfl
      (by decide) (by decide) (by decide) (by decide) (by norm_num)).2.2.2.2.2,
   by norm_num [centerX]⟩

/-! ## Helper lemmas: repeated calls on the same box -/

theorem update_same_box (mc : MotorController) (detections : List Detection)
    (frameSize : Size) (current_time : ℚ) (box : Rect)
    (hsel : (bestCandidate detections).2 = some box)
    (hbox : mc.trackedPlayerBox = none ∨ mc.trackedPlayerBox = some box)
    (hlast : mc.pan_pid_error_last = centerX box - (frameSize.width : ℚ) / 2
      ∨ mc.last_detection_time ≤ 0) :
    update mc detections frameSize current_time
      = ({ trackedPlayerBox := some box
           prevTrackedPlayerBox := mc.trackedPlayerBox
           last_detection_time := current_time
           frames_since_last_seen := 0
           pan_pid_error_last := centerX box - (frameSize.width : ℚ) / 2
           pan_pid_integral := mc.pan_pid_integral
             + (centerX box - (frameSize.width : ℚ) / 2) },
         Output.motorCommand
            (clamp (1 / 2 * (centerX box - (frameSize.width : ℚ) / 2)
              + 1 / 100 * (mc.pan_pid_integral + (centerX box - (frameSize.width : ℚ) / 2)))
              MIN_COMMAND MAX_COMMAND)
           :: handSignalScan detections) := by
  have hpred : predictedTargetCenterX (findBestPlayer mc detections) box
      (updateDt mc current_time) = centerX box := by
    rw [predictedTargetCenterX_findBestPlayer]
    rcases hbox with h | h
    · rw [h]
    · rw [h]
      simp only [sub_self, zero_div, zero_mul, add_zero, ite_self]
  have herr : panError (findBestPlayer mc detections) box frameSize (updateDt mc current_time)
      = centerX box - (frameSize.width : ℚ) / 2 := by
    rw [panError, hpred]
  have hder : panDerivative (findBestPlayer mc detections) box frameSize
      (updateDt mc current_time) = 0 := by
    unfold panDerivative
    by_cases hd : updateDt mc current_time > 0
    · rw [if_pos hd, herr]
      have hE : (findBestPlayer mc detections).pan_pid_error_last = mc.pan_pid_error_last := rfl
      rcases hlast with h | h
      · rw [hE, h, sub_self, zero_div]
      · exfalso
        have hnot : ¬ mc.last_detection_time > 0 := not_lt.mpr h
        simp only [updateDt, if_neg hnot] at hd
        exact lt_irrefl _ hd
    · rw [if_neg hd]
  have hcmd : panCommand (findBestPlayer mc detections) box frameSize
      (updateDt mc current_time)
      = 1 / 2 * (centerX box - (frameSize.width : ℚ) / 2)
        + 1 / 100 * (mc.pan_pid_integral + (centerX box - (frameSize.width : ℚ) / 2)) := by
    have hI : (findBestPlayer mc detections).pan_pid_integral = mc.pan_pid_integral := rfl
    rw [panCommand, herr, hder, hI]
    simp only [PAN_KP, PAN_KI, PAN_KD]
    ring
  rw [update_found mc detections frameSize current_time box hsel, herr, hcmd]

theorem run_same_box (box : Rect) (frameSize : Size)
    (calls : List (List Detection × Size × ℚ))
    (hcalls : ∀ c ∈ calls, (bestCandidate c.1).2 = some box ∧ c.2.1 = frameSize) :
    ∀ mc : MotorController,
      (mc.trackedPlayerBox = none ∨ mc.trackedPlayerBox = some box) →
      (mc.pan_pid_error_last = centerX box - (frameSize.width : ℚ) / 2
        ∨ mc.last_detection_time ≤ 0) →
      (run mc calls).1.pan_pid_integral
          = mc.pan_pid_integral
            + (calls.length : ℚ) * (centerX box - (frameSize.width : ℚ) / 2)
      ∧ ((run mc calls).1.trackedPlayerBox = none
          ∨ (run mc calls).1.trackedPlayerBox = some box)
      ∧ ((run mc calls).1.pan_pid_error_last = centerX box - (frameSize.width : ℚ) / 2
          ∨ (run mc calls).1.last_detection_time ≤ 0) := by
  induction calls with
  | nil =>
    intro mc hbox hlast
    simp only [run, List.length_nil, Nat.cast_zero, zero_mul, add_zero]
    exact ⟨trivial, hbox, hlast⟩
  | cons c rest ih =>
    intro mc hbox hlast
    obtain ⟨hsel, hfs⟩ := hcalls c (List.mem_cons_self _ _)
    have hstep := update_same_box mc c.1 c.2.1 c.2.2 box hsel hbox (by rw [hfs]; exact hlast)
    have hrest := ih (fun k hk => hcalls k (List.mem_cons_of_mem _ hk))
      (update mc c.1 c.2.1 c.2.2).1
      (by rw [hstep]; exact Or.inr rfl)
      (by rw [hstep, hfs]; exact Or.inl rfl)
    simp only [run]
    refine ⟨?_, hrest.2.1, hrest.2.2⟩
    rw [hrest.1, hstep, hfs]
    simp only [List.length_cons, Nat.cast_add, Nat.cast_one]
    ring

/-- C17: from the initial state, after any number `n` of consecutive calls
that all select the same box in the same frame size (error `e` constant), the
integral is `n * e`, and the next such call emits
`clamp (0.5 * e + 0.01 * ((n + 1) * e)) (-255) 255` : the integral is neither
clamped nor reset.  Hence for `e ≠ 0` and every bound there is a number of
calls after which the integral exceeds the bound in absolute value while the
emitted pan value sits at 255 (for `e > 0`) or -255 (for `e < 0`). -/
theorem integral_accumulates_without_clamp (box : Rect) (frameSize : Size) :
    (∀ calls : List (List Detection × Size × ℚ),
      (∀ c ∈ calls, (bestCandidate c.1).2 = some box ∧ c.2.1 = frameSize) →
      (run MotorController.init calls).1.pan_pid_integral
          = (calls.length : ℚ) * (centerX box - (frameSize.width : ℚ) / 2)
      ∧ ∀ (detections : List Detection) (current_time : ℚ),
          (bestCandidate detections).2 = some box →
          commandsOf (update (run MotorController.init calls).1 detections frameSize
              current_time).2
            = [clamp (1 / 2 * (centerX box - (frameSize.width : ℚ) / 2)
                + 1 / 100 * (((calls.length : ℚ) + 1)
                    * (centerX box - (frameSize.width : ℚ) / 2))) (-255) 255])
    ∧ (centerX box - (frameSize.width : ℚ) / 2 ≠ 0 →
        ∀ bound : ℚ, ∃ n0 : Nat, ∀ calls : List (List Detection × Size × ℚ),
          (∀ c ∈ calls, (bestCandidate c.1).2 = some box ∧ c.2.1 = frameSize) →
          n0 ≤ calls.length →
          bound < |(run MotorController.init calls).1.pan_pid_integral|
          ∧ ∀ (detections : List Detection) (current_time : ℚ),
              (bestCandidate detections).2 = some box →
              commandsOf (update (run MotorController.init calls).1 detections frameSize
                  current_time).2
                = [if 0 < centerX box - (frameSize.width : ℚ) / 2 then 255 else -255]) := by
  have hmain : ∀ calls : List (List Detection × Size × ℚ),
      (∀ c ∈ calls, (bestCandidate c.1).2 = some box ∧ c.2.1 = frameSize) →
      (run MotorController.init calls).1.pan_pid_integral
          = (calls.length : ℚ) * (centerX box - (frameSize.width : ℚ) / 2)
      ∧ ∀ (detections : List Detection) (current_time : ℚ),
          (bestCandidate detections).2 = some box →
          commandsOf (update (run MotorController.init calls).1 detections frameSize
              current_time).2
            = [clamp (1 / 2 * (centerX box - (frameSize.width : ℚ) / 2)
                + 1 / 100 * (((calls.length : ℚ) + 1)
                    * (centerX box - (frameSize.width : ℚ) / 2))) (-255) 255] := by
    intro calls hcalls
    obtain ⟨hI, hbox, hlast⟩ := run_same_box box frameSize calls hcalls MotorController.init
      (Or.inl rfl) (Or.inr (le_refl _))
    have hI0 : (run MotorController.init calls).1.pan_pid_integral
        = (calls.length : ℚ) * (centerX box - (frameSize.width : ℚ) / 2) := by
      rw [hI]
      simp only [MotorController.init, zero_add]
    refine ⟨hI0, fun detections current_time hsel => ?_⟩
    rw [update_same_box _ detections frameSize current_time box hsel hbox hlast, hI0]
    simp only [commandsOf, commandsOf_handSignalScan, MIN_COMMAND, MAX_COMMAND]
    congr 2
    ring
  refine ⟨hmain, fun he bound => ?_⟩
  obtain ⟨n0, hn0⟩ := exists_nat_gt
    ((|bound| + 25500) / |centerX box - (frameSize.width : ℚ) / 2|)
  refine ⟨n0, fun calls hcalls hlen => ?_⟩
  obtain ⟨hI0, hcmd⟩ := hmain calls hcalls
  have habs : 0 < |centerX box - (frameSize.width : ℚ) / 2| := abs_pos.mpr he
  have hn : ((|bound| + 25500) / |centerX box - (frameSize.width : ℚ) / 2|)
      < (calls.length : ℚ) :=
    lt_of_lt_of_le hn0 (by exact_mod_cast hlen)
  have hbig : |bound| + 25500
      < (calls.length : ℚ) * |centerX box - (frameSize.width : ℚ) / 2| :=
    (div_lt_iff₀ habs).mp hn
  have hlen0 : (0 : ℚ) ≤ (calls.length : ℚ) := Nat.cast_nonneg _
  constructor
  · rw [hI0, abs_mul, abs_of_nonneg hlen0]
    have := le_abs_self bound
    linarith
  · intro detections current_time hsel
    rw [hcmd detections current_time hsel]
    by_cases hpos : 0 < centerX box - (frameSize.width : ℚ) / 2
    · rw [if_pos hpos]
      rw [abs_of_pos hpos] at hbig
      have h0 := abs_nonneg bound
      have hraw : (255 : ℚ) < 1 / 2 * (centerX box - (frameSize.width : ℚ) / 2)
          + 1 / 100 * (((calls.length : ℚ) + 1)
              * (centerX box - (frameSize.width : ℚ) / 2)) := by
        nlinarith
      unfold clamp
      rw [if_neg (by linarith), if_pos hraw]
    · have hneg : centerX box - (frameSize.width : ℚ) / 2 < 0 :=
        lt_of_le_of_ne (not_lt.mp hpos) he
      rw [if_neg hpos]
      rw [abs_of_neg hneg] at hbig
      have h0 := abs_nonneg bound
      have hraw : 1 / 2 * (centerX box - (frameSize.width : ℚ) / 2)
          + 1 / 100 * (((calls.length : ℚ) + 1)
              * (centerX box - (frameSize.width : ℚ) / 2)) < -255 := by
        nlinarith
      unfold clamp
      rw [if_pos hraw]

/-- Witness of C17: a box centred at 10 in a frame of width 2000 (error
`-990`): after three calls the integral is `-2970`, and the fourth call emits
`clamp (0.5 * (-990) + 0.01 * (4 * (-990))) (-255) 255 = -255`. -/
theorem integral_accumulates_without_clamp_witness :
    (run MotorController.init
        [([⟨1, 9 / 10, ⟨0, 0, 20, 10⟩, "Player"⟩], ⟨2000, 1000⟩, 1),
         ([⟨1, 9 / 10, ⟨0, 0, 20, 10⟩, "Player"⟩], ⟨2000, 1000⟩, 2),
         ([⟨1, 9 / 10, ⟨0, 0, 20, 10⟩, "Player"⟩], ⟨2000, 1000⟩, 3)]).1.pan_pid_integral
      = ((3 : Nat) : ℚ) * (centerX ⟨0, 0, 20, 10⟩ - ((2000 : Int) : ℚ) / 2)
    ∧ ((3 : Nat) : ℚ) * (centerX ⟨0, 0, 20, 10⟩ - ((2000 : Int) : ℚ) / 2) = -2970
    ∧ clamp (1 / 2 * (centerX ⟨0, 0, 20, 10⟩ - ((2000 : Int) : ℚ) / 2)
        + 1 / 100 * ((((3 : Nat) : ℚ) + 1)
            * (centerX ⟨0, 0, 20, 10⟩ - ((2000 : Int) : ℚ) / 2))) (-255) 255 = -255 :=
  ⟨((integral_accumulates_without_clamp ⟨0, 0, 20, 10⟩ ⟨2000, 1000⟩).1
      [([⟨1, 9 / 10, ⟨0, 0, 20, 10⟩, "Player"⟩], ⟨2000, 1000⟩, 1),
       ([⟨1, 9 / 10, ⟨0, 0, 20, 10⟩, "Player"⟩], ⟨2000, 1000⟩, 2),
       ([⟨1, 9 / 10, ⟨0, 0, 20, 10⟩, "Player"⟩], ⟨2000, 1000⟩, 3)]
      (by decide)).1,
   by norm_num [centerX],
   by norm_num [clamp, centerX]⟩

/-! ## Helper lemmas: invariant and the variant without invalidation -/

theorem update_state_invariant (mc : MotorController) (detections : List Detection)
    (frameSize : Size) (current_time : ℚ) :
    ((update mc detections frameSize current_time).1.prevTrackedPlayerBox ≠ none →
        (update mc detections frameSize current_time).1.trackedPlayerBox ≠ none)
    ∧ ((update mc detections frameSize current_time).1.trackedPlayerBox ≠ none →
        (update mc detections frameSize current_time).1.frames_since_last_seen = 0) := by
  cases hb : (bestCandidate detections).2 with
  | some box =>
    rw [update_found mc detections frameSize current_time box hb]
    exact ⟨fun _ => by simp, fun _ => rfl⟩
  | none =>
    rw [update_missed mc detections frameSize current_time hb]
    exact ⟨fun h => absurd rfl h, fun h => absurd rfl h⟩

theorem run_state_invariant (calls : List (List Detection × Size × ℚ)) :
    ∀ mc : MotorController,
      ((mc.prevTrackedPlayerBox ≠ none → mc.trackedPlayerBox ≠ none)
        ∧ (mc.trackedPlayerBox ≠ none → mc.frames_since_last_seen = 0)) →
      (((run mc calls).1.prevTrackedPlayerBox ≠ none →
          (run mc calls).1.trackedPlayerBox ≠ none)
        ∧ ((run mc calls).1.trackedPlayerBox ≠ none →
          (run mc calls).1.frames_since_last_seen = 0)) := by
  induction calls with
  | nil => intro mc h; exact h
  | cons c rest ih =>
    intro mc _
    simp only [run]
    exact ih _ (update_state_invariant mc c.1 c.2.1 c.2.2)

theorem updateNoInvalidate_agrees (mc mc1 : MotorController) (detections : List Detection)
    (frameSize : Size) (current_time : ℚ)
    (hrel : { mc1 with prevTrackedPlayerBox := none } = { mc with prevTrackedPlayerBox := none }) :
    (updateNoInvalidate mc1 detections frameSize current_time).2
        = (update mc detections frameSize current_time).2
    ∧ { (updateNoInvalidate mc1 detections frameSize current_time).1 with
          prevTrackedPlayerBox := none }
        = { (update mc detections frameSize current_time).1 with
          prevTrackedPlayerBox := none } := by
  have hfb : findBestPlayer mc1 detections = findBestPlayer mc detections := by
    cases mc
    cases mc1
    simp only [MotorController.mk.injEq, true_and] at hrel
    obtain ⟨h1, h2, h3, h4, h5⟩ := hrel
    subst h1 h2 h3 h4 h5
    rfl
  have hdt : updateDt mc1 current_time = updateDt mc current_time := by
    cases mc
    cases mc1
    simp only [MotorController.mk.injEq, true_and] at hrel
    obtain ⟨h1, h2, h3, h4, h5⟩ := hrel
    subst h1 h2 h3 h4 h5
    rfl
  unfold updateNoInvalidate trackStepNoInvalidate update trackStep
  rw [hfb, hdt]
  cases (findBestPlayer mc detections).trackedPlayerBox with
  | some box => exact ⟨rfl, rfl⟩
  | none => exact ⟨rfl, rfl⟩

theorem runNoInvalidate_agrees (calls : List (List Detection × Size × ℚ)) :
    ∀ mc mc1 : MotorController,
      { mc1 with prevTrackedPlayerBox := none } = { mc with prevTrackedPlayerBox := none } →
      (runNoInvalidate mc1 calls).2 = (run mc calls).2
      ∧ { (runNoInvalidate mc1 calls).1 with prevTrackedPlayerBox := none }
          = { (run mc calls).1 with prevTrackedPlayerBox := none } := by
  induction calls with
  | nil => intro mc mc1 h; exact ⟨rfl, h⟩
  | cons c rest ih =>
    intro mc mc1 h
    obtain ⟨hout, hst⟩ := updateNoInvalidate_agrees mc mc1 c.1 c.2.1 c.2.2 h
    obtain ⟨hrest, hfin⟩ := ih _ _ hst
    simp only [run, runNoInvalidate]
    exact ⟨by rw [hout, hrest], hfin⟩

/-! ## Claims: bounds of the tensor reads, invariant, refinement -/

/-- C18: for a tensor of exactly `(4 + C) * N` values, every offset read by
the proposal loop, `k * N + i` for `k < 4` and `(4 + j) * N + i` (written
`4 * N + i + j * N` in the code) for `j < C`, with `i < N`, is below
`(4 + C) * N`, the read returns a value, and the Option-valued loop body,
proposal loop and `detect` all return a result (never the out-of-range
`none`). -/
theorem decode_reads_in_bounds (det : Detector) (raw_output : List ℚ) (N C : Nat)
    (frame_cols frame_rows input_width input_height : Int)
    (hshape : raw_output.length = (4 + C) * N) :
    (∀ i < N, ∀ k < 4, k * N + i < (4 + C) * N ∧ ∃ v, raw_output[k * N + i]? = some v)
    ∧ (∀ i < N, ∀ j < C, (4 + j) * N + i < (4 + C) * N
        ∧ 4 * N + i + j * N = (4 + j) * N + i
        ∧ ∃ v, raw_output[4 * N + i + j * N]? = some v)
    ∧ (∀ i < N, ∀ (x_factor y_factor : ℚ) (acc : Candidates),
        ∃ res, decodeProposal det raw_output N C x_factor y_factor i acc = some res)
    ∧ (∃ cands, decode det raw_output N C frame_cols frame_rows input_width input_height
        = some cands)
    ∧ ∃ ds, detect det raw_output N C frame_cols frame_rows input_width input_height
        = some ds := by
  refine ⟨?_, ?_, ?_, ?_, ?_⟩
  · intro i hi k hk
    have hlt := boxParam_index_lt raw_output.length N C i k hshape hi hk
    exact ⟨by rw [← hshape]; exact hlt, _, boxParam_read raw_output N C i k hshape hi hk⟩
  · intro i hi j hj
    have hlt := classScore_index_lt raw_output.length N C i j hshape hi hj
    refine ⟨?_, (classScore_offset N i j).symm, _,
      classScore_read raw_output N C i hshape hi j (List.mem_range.mpr hj)⟩
    rw [classScore_offset, ← hshape]
    exact hlt
  · intro i hi x_factor y_factor acc
    obtain ⟨best, _, hdec⟩ := decodeProposal_spec det raw_output N C x_factor y_factor i acc
      hshape hi
    exact ⟨_, hdec⟩
  · obtain ⟨cands, hdec, _⟩ := decode_spec det raw_output N C frame_cols frame_rows
      input_width input_height hshape
    exact ⟨cands, hdec⟩
  · obtain ⟨_, ds, _, hds, _⟩ := detect_spec det raw_output N C frame_cols frame_rows
      input_width input_height hshape
    exact ⟨ds, hds⟩

/-- Witness of C18: a tensor of `(4 + 2) * 2 = 12` values; `detect` returns a
list, and with one value missing the same call fails. -/
theorem decode_reads_in_bounds_witness :
    ([320, 100, 320, 300, 100, 30, 50, 30, 1 / 10, 2 / 10, 9 / 10, 3 / 10] : List ℚ).length
        = (4 + 2) * 2
    ∧ (∃ ds, detect (Detector.init ["Hand-Signal", "Player"])
          [320, 100, 320, 300, 100, 30, 50, 30, 1 / 10, 2 / 10, 9 / 10, 3 / 10] 2 2
          1280 960 640 640 = some ds)
    ∧ detect (Detector.init ["Hand-Signal", "Player"])
          [320, 100, 320, 300, 100, 30, 50, 30, 1 / 10, 2 / 10, 9 / 10] 2 2
          1280 960 640 640 = none :=
  ⟨rfl,
   (decode_reads_in_bounds (Detector.init ["Hand-Signal", "Player"])
      [320, 100, 320, 300, 100, 30, 50, 30, 1 / 10, 2 / 10, 9 / 10, 3 / 10] 2 2
      1280 960 640 640 rfl).2.2.2.2,
   by norm_num [detect, decode, decodeProposals, decodeProposal, scanClasses, List.range,
      List.range.loop, Detector.init, scaledBox, truncToInt, Candidates.empty]⟩

/-- C19: in every state reached from the initial state by a sequence of
`update` calls, a present previous box implies a present tracked box, and a
present tracked box implies a frame counter of 0. -/
theorem reachable_state_invariant (calls : List (List Detection × Size × ℚ)) :
    ((run MotorController.init calls).1.prevTrackedPlayerBox ≠ none →
        (run MotorController.init calls).1.trackedPlayerBox ≠ none)
    ∧ ((run MotorController.init calls).1.trackedPlayerBox ≠ none →
        (run MotorController.init calls).1.frames_since_last_seen = 0) :=
  run_state_invariant calls MotorController.init
    ⟨fun h => absurd rfl h, fun h => absurd rfl h⟩

/-- C20: for every sequence of calls, from the initial state (and from any
state), the outputs of `update` call by call, pan values and pass-command
events, are those of the variant whose no-target branch does not set
`prevTrackedPlayerBox` to absent, and the final states differ at most in
`prevTrackedPlayerBox`. -/
theorem invalidation_not_observable (calls : List (List Detection × Size × ℚ)) :
    (run MotorController.init calls).2 = (runNoInvalidate MotorController.init calls).2
    ∧ ∀ mc : MotorController,
        (run mc calls).2 = (runNoInvalidate mc calls).2
        ∧ { (run mc calls).1 with prevTrackedPlayerBox := none }
            = { (runNoInvalidate mc calls).1 with prevTrackedPlayerBox := none } :=
  ⟨(runNoInvalidate_agrees calls MotorController.init MotorController.init rfl).1.symm,
   fun mc => ⟨(runNoInvalidate_agrees calls mc mc rfl).1.symm,
    (runNoInvalidate_agrees calls mc mc rfl).2.symm⟩⟩

/-- Witness of C20: from a state tracking a box, one call without detection
followed by one more: the variant keeps the old box as previous box after the
first call where `update` clears it, and both emit the same outputs. -/
theorem invalidation_not_observable_witness :
    (update { MotorController.init with trackedPlayerBox := some ⟨90, 0, 20, 10⟩ } []
        ⟨640, 480⟩ 1).1.prevTrackedPlayerBox = none
    ∧ (updateNoInvalidate { MotorController.init with trackedPlayerBox := some ⟨90, 0, 20, 10⟩ }
        [] ⟨640, 480⟩ 1).1.prevTrackedPlayerBox = some ⟨90, 0, 20, 10⟩
    ∧ (run { MotorController.init with trackedPlayerBox := some ⟨90, 0, 20, 10⟩ }
        [([], ⟨640, 480⟩, 1), ([], ⟨640, 480⟩, 2)]).2
      = (runNoInvalidate { MotorController.init with trackedPlayerBox := some ⟨90, 0, 20, 10⟩ }
        [([], ⟨640, 480⟩, 1), ([], ⟨640, 480⟩, 2)]).2 :=
  ⟨by decide, by decide,
   ((invalidation_not_observable [([], ⟨640, 480⟩, 1), ([], ⟨640, 480⟩, 2)]).2
      { MotorController.init with trackedPlayerBox := some ⟨90, 0, 20, 10⟩ }).1⟩

end BasketballTracker
